import Mathlib

/-!
Verification of the MyMCP translation engine (OpenAPI → MCP server).

Shallow embedding conventions:
* JavaScript strings are modelled as `List Char` (`Str`); JSON values as the
  inductive `JVal` (numbers are modelled as integers: the integral subset of
  JSON numbers; IEEE-754 specifics are outside the model).
* JS objects are modelled as ordered association lists (`List (Str × JVal)`),
  matching `Object.entries` enumeration order for string keys.
* Fallible JS code (throwing) is embedded in `Except Str`; a JS function that
  can return `null`/`undefined` yields an `Option`.
* Unbounded recursion in the source (the schema resolver has no cycle
  detection) is embedded with an explicit fuel parameter; running out of fuel
  produces the distinguished error `fuelError`, which corresponds to the
  source diverging or overflowing the call stack.
-/

namespace MyMCP

abbrev Str := List Char

/-- JSON-like runtime values (the integral-number subset of JSON). -/
inductive JVal where
  | null : JVal
  | bool (b : Bool) : JVal
  | num (n : Int) : JVal
  | str (s : Str) : JVal
  | arr (elems : List JVal) : JVal
  | obj (fields : List (Str × JVal)) : JVal

/-- JavaScript truthiness of a `JVal` (`undefined` is represented at use
sites by `Option.none`). -/
def truthy : JVal → Bool
  | .null => false
  | .bool b => b
  | .num n => n != 0
  | .str s => s != []
  | .arr _ => true
  | .obj _ => true

/-- Truthiness of a possibly-`undefined` value. -/
def truthyOpt : Option JVal → Bool
  | none => false
  | some v => truthy v

/-- Property access `v[key]`; `none` models `undefined`.  Primitive
receivers yield `undefined` for the keys this code base accesses. -/
def jsGet : JVal → Str → Option JVal
  | .obj fields, key => fields.lookup key
  | _, _ => none

/-- `typeof v === 'object'` (true for objects, arrays and `null`). -/
def isObjType : JVal → Bool
  | .obj _ => true
  | .arr _ => true
  | .null => true
  | _ => false

/-- Decimal digits of a natural number, most significant first; the first
argument is recursion fuel (any fuel above the number itself is enough). -/
def natDigitsAux : Nat → Nat → Str
  | 0, _ => []
  | fuel + 1, n =>
    if n < 10 then [Char.ofNat (48 + n)]
    else natDigitsAux fuel (n / 10) ++ [Char.ofNat (48 + n % 10)]

/-- Decimal rendering of a natural number (`String(n)` for `n ≥ 0`). -/
def natToStr (n : Nat) : Str := natDigitsAux (n + 1) n

/-- Decimal rendering of an integer, as produced by `String(n)` and
`JSON.stringify(n)` for the integral numbers this code base handles. -/
def intToStr (n : Int) : Str :=
  if n < 0 then '-' :: natToStr n.natAbs else natToStr n.natAbs

/-- The `in` operator: key membership for objects and arrays; on a primitive
receiver JavaScript throws a `TypeError`. -/
def jsIn (key : Str) : JVal → Except Str Bool
  | .obj fields => .ok (fields.any (fun kv => kv.1 = key))
  | .arr elems => .ok (decide (∃ i < elems.length, (Nat.repr i).data = key))
  | _ => .error ("TypeError: cannot use in operator".data)

mutual

/-- `String(v)`: JavaScript string coercion for the values this code base
passes to it (array elements are joined with commas, as
`Array.prototype.toString` does). -/
def jsToString : JVal → Str
  | .null => "null".data
  | .bool true => "true".data
  | .bool false => "false".data
  | .num n => intToStr n
  | .str s => s
  | .arr elems => jsToStringElems elems
  | .obj _ => "[object Object]".data

/-- Comma-join of coerced array elements (`Array.prototype.join(',')`). -/
def jsToStringElems : List JVal → Str
  | [] => []
  | [v] => jsToString v
  | v :: rest => jsToString v ++ ',' :: jsToStringElems rest

end

/-- `left.startsWith right` / prefix test used to model `String.startsWith`. -/
def strStarts (s pre : Str) : Bool := pre.isPrefixOf s

/-- `s.includes(sub)`: substring test (`String.prototype.includes`). -/
def strContains (s sub : Str) : Bool :=
  sub.isPrefixOf s ||
    match s with
    | [] => false
    | _ :: t => strContains t sub

/-! ## CallExecutor: `encodeURIComponent` and path substitution (`util.ts`) -/

/-- Upper-case hex digit for a value below 16. -/
def hexUpper (n : Nat) : Char :=
  if n < 10 then Char.ofNat (48 + n) else Char.ofNat (55 + n)

/-- UTF-8 bytes of a character (1–4 bytes). -/
def utf8Bytes (c : Char) : List Nat :=
  let n := c.toNat
  if n < 0x80 then [n]
  else if n < 0x800 then [0xC0 + n / 64, 0x80 + n % 64]
  else if n < 0x10000 then [0xE0 + n / 4096, 0x80 + n / 64 % 64, 0x80 + n % 64]
  else [0xF0 + n / 262144, 0x80 + n / 4096 % 64, 0x80 + n / 64 % 64, 0x80 + n % 64]

/-- Characters `encodeURIComponent` leaves unescaped. -/
def uriUnreserved (c : Char) : Bool :=
  (('A' ≤ c && c ≤ 'Z') || ('a' ≤ c && c ≤ 'z') || ('0' ≤ c && c ≤ '9')
    || c = '-' || c = '_' || c = '.' || c = '!' || c = '~' || c = '*'
    || c = '\'' || c = '(' || c = ')')

/-- `encodeURIComponent`. -/
def encodeURIComponent (s : Str) : Str :=
  s.flatMap (fun c =>
    if uriUnreserved c then [c]
    else (utf8Bytes c).flatMap (fun b => ['%', hexUpper (b / 16), hexUpper (b % 16)]))

/-- `String.prototype.replace` with a string pattern: replaces only the
first occurrence of `pat` (the replacement values the source passes through
contain no `$`-patterns). -/
def replaceFirst : (t pat repl : Str) → Str
  | [], pat, repl => if pat.isPrefixOf ([] : Str) then repl else []
  | c :: rest, pat, repl =>
    if pat.isPrefixOf (c :: rest) then repl ++ (c :: rest).drop pat.length
    else c :: replaceFirst rest pat repl

/-- The placeholder pattern `{name}`. -/
def bracePat (k : Str) : Str := '{' :: k ++ ['}']

/-- The placeholder pattern `:name`. -/
def colonPat (k : Str) : Str := ':' :: k

/-- The `reduce` over `pathParameters.entries()` inside `buildApiUrl`
(util.ts): for each bound parameter, `.replace('{k}', enc).replace(':k', enc)`. -/
def substPathParams (path : Str) (pathParameters : List (Str × Str)) : Str :=
  pathParameters.foldl
    (fun prev kv =>
      replaceFirst (replaceFirst prev (bracePat kv.1) (encodeURIComponent kv.2))
        (colonPat kv.1) (encodeURIComponent kv.2))
    path

/-- Serialize `URLSearchParams` pairs (`application/x-www-form-urlencoded`):
blanks become `+`, other reserved characters are percent-encoded. -/
def urlSearchParamsToString (pairs : List (Str × Str)) : Str :=
  let enc := fun (s : Str) => s.flatMap (fun c =>
    if c = ' ' then ['+']
    else if ('A' ≤ c && c ≤ 'Z') || ('a' ≤ c && c ≤ 'z') || ('0' ≤ c && c ≤ '9')
        || c = '-' || c = '_' || c = '.' || c = '*' then [c]
    else (utf8Bytes c).flatMap (fun b => ['%', hexUpper (b / 16), hexUpper (b % 16)]))
  List.intercalate ['&'] (pairs.map (fun kv => enc kv.1 ++ '=' :: enc kv.2))

/-- `buildApiUrl` (util.ts, first revision): path substitution, scheme
defaulting and query-string append. -/
def buildApiUrl (host path : Str) (pathParameters : List (Str × Str))
    (queryParameters : List (Str × Str)) : Str :=
  let processedPath := substPathParams path pathParameters
  let baseUrl :=
    if strStarts host ("http".data) then host ++ processedPath
    else "https://".data ++ host ++ processedPath
  let qs := urlSearchParamsToString queryParameters
  if qs.length > 0 then baseUrl ++ '?' :: qs else baseUrl

/-! ## JSON serialization (`JSON.stringify`) -/

/-- Lower-case hex digit (the form `JSON.stringify` uses in `\u00xx`). -/
def hexLower (n : Nat) : Char :=
  if n < 10 then Char.ofNat (48 + n) else Char.ofNat (87 + n)

/-- `JSON.stringify` escaping of one string character. -/
def escChar (c : Char) : Str :=
  if c = '"' then ['\\', '"']
  else if c = '\\' then ['\\', '\\']
  else if c = Char.ofNat 8 then ['\\', 'b']
  else if c = '\t' then ['\\', 't']
  else if c = '\n' then ['\\', 'n']
  else if c = Char.ofNat 12 then ['\\', 'f']
  else if c = '\r' then ['\\', 'r']
  else if c.toNat < 32 then
    ['\\', 'u', '0', '0', hexLower (c.toNat / 16), hexLower (c.toNat % 16)]
  else [c]

/-- `JSON.stringify` escaping of a string body (without the quotes). -/
def escString (s : Str) : Str := s.flatMap escChar

mutual

/-- Compact `JSON.stringify` (no indent argument). -/
def stringifyJson : JVal → Str
  | .null => "null".data
  | .bool true => "true".data
  | .bool false => "false".data
  | .num n => intToStr n
  | .str s => '"' :: escString s ++ ['"']
  | .arr elems => '[' :: stringifyArr elems ++ [']']
  | .obj fields => '{' :: stringifyObj fields ++ ['}']

/-- Comma-separated serialized array elements. -/
def stringifyArr : List JVal → Str
  | [] => []
  | [v] => stringifyJson v
  | v :: rest => stringifyJson v ++ ',' :: stringifyArr rest

/-- Comma-separated serialized object members. -/
def stringifyObj : List (Str × JVal) → Str
  | [] => []
  | [(k, v)] => '"' :: escString k ++ '"' :: ':' :: stringifyJson v
  | (k, v) :: rest =>
    '"' :: escString k ++ '"' :: ':' :: stringifyJson v ++ ',' :: stringifyObj rest

end

/-- `n` blanks. -/
def nSpaces (n : Nat) : Str := List.replicate n ' '

mutual

/-- `JSON.stringify(v, null, 2)`: two-space-indented serialization, used by
the gateway to render non-string tool outputs. -/
def ppJson (ind : Nat) : JVal → Str
  | .arr elems =>
    match elems with
    | [] => ['[', ']']
    | _ :: _ => '[' :: '\n' :: ppArr (ind + 2) elems ++ '\n' :: nSpaces ind ++ [']']
  | .obj fields =>
    match fields with
    | [] => ['{', '}']
    | _ :: _ => '{' :: '\n' :: ppObj (ind + 2) fields ++ '\n' :: nSpaces ind ++ ['}']
  | v => stringifyJson v

/-- Indented array elements, one per line. -/
def ppArr (ind : Nat) : List JVal → Str
  | [] => []
  | [v] => nSpaces ind ++ ppJson ind v
  | v :: rest => nSpaces ind ++ ppJson ind v ++ ',' :: '\n' :: ppArr ind rest

/-- Indented object members, one per line. -/
def ppObj (ind : Nat) : List (Str × JVal) → Str
  | [] => []
  | [(k, v)] => nSpaces ind ++ '"' :: escString k ++ '"' :: ':' :: ' ' :: ppJson ind v
  | (k, v) :: rest =>
    nSpaces ind ++ '"' :: escString k ++ '"' :: ':' :: ' ' :: ppJson ind v
      ++ ',' :: '\n' :: ppObj ind rest

end

/-! ## `JSON.parse` and the stream task token (`btoa`/`atob`, part_000)

`POST /stream` encodes the whole invocation body as
`btoa(JSON.stringify(invocationData))`; the WebSocket `onOpen` handler
decodes it with `JSON.parse(atob(id))`.  The parser below models
`JSON.parse` on the whitespace-free documents `JSON.stringify` emits
(integral numbers, no leading zeros); it rejects anything else, which is
conservative for the round-trip property at issue. -/

/-- Value of one hexadecimal digit character. -/
def parseHexDigit (c : Char) : Option Nat :=
  if '0' ≤ c ∧ c ≤ '9' then some (c.toNat - 48)
  else if 'a' ≤ c ∧ c ≤ 'f' then some (c.toNat - 87)
  else if 'A' ≤ c ∧ c ≤ 'F' then some (c.toNat - 55)
  else none

/-- The character named by a single-letter JSON escape. -/
def unescapeChar (e : Char) : Option Char :=
  if e = '"' then some '"'
  else if e = '\\' then some '\\'
  else if e = '/' then some '/'
  else if e = 'b' then some (Char.ofNat 8)
  else if e = 'f' then some (Char.ofNat 12)
  else if e = 'n' then some '\n'
  else if e = 'r' then some '\r'
  else if e = 't' then some '\t'
  else none

/-- Parse a JSON string body after the opening quote; returns the decoded
characters and the input after the closing quote. -/
def parseStringBody : Str → Option (Str × Str)
  | [] => none
  | c :: rest =>
    if c = '"' then some ([], rest)
    else if c = '\\' then
      match rest with
      | 'u' :: h1 :: h2 :: h3 :: h4 :: rest' => do
        let d1 ← parseHexDigit h1
        let d2 ← parseHexDigit h2
        let d3 ← parseHexDigit h3
        let d4 ← parseHexDigit h4
        let tl ← parseStringBody rest'
        pure (Char.ofNat (((d1 * 16 + d2) * 16 + d3) * 16 + d4) :: tl.1, tl.2)
      | e :: rest' => do
        let c' ← unescapeChar e
        let tl ← parseStringBody rest'
        pure (c' :: tl.1, tl.2)
      | [] => none
    else if c.toNat < 32 then none
    else do
      let tl ← parseStringBody rest
      pure (c :: tl.1, tl.2)

/-- Accumulate decimal digits, returning the value and the remaining input. -/
def parseDigitsAux (acc : Nat) : Str → Nat × Str
  | [] => (acc, [])
  | c :: rest =>
    if c.isDigit then parseDigitsAux (acc * 10 + (c.toNat - 48)) rest
    else (acc, c :: rest)

/-- Parse a nonempty run of decimal digits. -/
def parseNat : Str → Option (Nat × Str)
  | [] => none
  | c :: rest => if c.isDigit then some (parseDigitsAux 0 (c :: rest)) else none

/-- After an integer literal, a fraction or exponent marker would make the
number non-integral; the model accepts only integral numbers. -/
def numBoundary : Str → Bool
  | [] => true
  | c :: _ => !c.isDigit && !(c = '.' || c = 'e' || c = 'E')

/-- Parse an integral JSON number. -/
def parseNumber : Str → Option (Int × Str)
  | [] => none
  | c :: rest =>
    if c = '-' then do
      let nr ← parseNat rest
      if numBoundary nr.2 then pure (-(nr.1 : Int), nr.2) else none
    else do
      let nr ← parseNat (c :: rest)
      if numBoundary nr.2 then pure ((nr.1 : Int), nr.2) else none

/-- Parse `v (, v)* ]`: the elements of a nonempty JSON array after `[`,
given a parser `pv` for one value.  Fuel bounds the number of elements. -/
def parseSeq (pv : Str → Option (JVal × Str)) : Nat → Str → Option (List JVal × Str)
  | 0, _ => none
  | fuel + 1, s => do
    let vr ← pv s
    match vr.2 with
    | ',' :: rest => do
      let tail ← parseSeq pv fuel rest
      pure (vr.1 :: tail.1, tail.2)
    | ']' :: rest => pure ([vr.1], rest)
    | _ => none

/-- Parse `"k":v (, "k":v)* }`: the members of a nonempty JSON object after
`{`, given a parser `pv` for one value. -/
def parseMembersSeq (pv : Str → Option (JVal × Str)) :
    Nat → Str → Option (List (Str × JVal) × Str)
  | 0, _ => none
  | fuel + 1, s =>
    match s with
    | '"' :: rest => do
      let key ← parseStringBody rest
      match key.2 with
      | ':' :: rest2 => do
        let vr ← pv rest2
        match vr.2 with
        | ',' :: rest3 => do
          let tail ← parseMembersSeq pv fuel rest3
          pure ((key.1, vr.1) :: tail.1, tail.2)
        | '}' :: rest3 => pure ([(key.1, vr.1)], rest3)
        | _ => none
      | _ => none
    | _ => none

/-- Parse one JSON value; fuel bounds the nesting depth. -/
def parseValue : Nat → Str → Option (JVal × Str)
  | 0, _ => none
  | fuel + 1, s =>
    match s with
    | [] => none
    | c :: rest =>
      if c = 'n' then
        match rest with
        | 'u' :: 'l' :: 'l' :: r => some (.null, r)
        | _ => none
      else if c = 't' then
        match rest with
        | 'r' :: 'u' :: 'e' :: r => some (.bool true, r)
        | _ => none
      else if c = 'f' then
        match rest with
        | 'a' :: 'l' :: 's' :: 'e' :: r => some (.bool false, r)
        | _ => none
      else if c = '"' then
        (parseStringBody rest).map (fun sr => (JVal.str sr.1, sr.2))
      else if c = '[' then
        if rest.head? = some ']' then some (.arr [], rest.tail)
        else (parseSeq (parseValue fuel) fuel rest).map (fun er => (JVal.arr er.1, er.2))
      else if c = '{' then
        if rest.head? = some '}' then some (.obj [], rest.tail)
        else (parseMembersSeq (parseValue fuel) fuel rest).map
          (fun mr => (JVal.obj mr.1, mr.2))
      else (parseNumber (c :: rest)).map (fun nr => (JVal.num nr.1, nr.2))

/-- `JSON.parse` on a whole document: one value consuming all input. -/
def parseJson (s : Str) : Option JVal :=
  match parseValue (s.length + 1) s with
  | some (v, []) => some v
  | _ => none

/-- The base64 alphabet. -/
def b64Alphabet : Str :=
  "ABCDEFGHIJKLMNOPQRSTUVWXYZabcdefghijklmnopqrstuvwxyz0123456789+/".data

/-- Base64 digit for a 6-bit value. -/
def b64Char (n : Nat) : Char := (b64Alphabet.getD n 'A')

/-- Index of a character in a string, if present. -/
def idxOfChar (c : Char) : Str → Option Nat
  | [] => none
  | d :: rest => if d = c then some 0 else (idxOfChar c rest).map (· + 1)

/-- 6-bit value of a base64 digit. -/
def b64Val (c : Char) : Option Nat := idxOfChar c b64Alphabet

/-- Base64 of a byte sequence, with `=` padding. -/
def b64Encode : List Nat → Str
  | [] => []
  | [a] => [b64Char (a / 4), b64Char (a % 4 * 16), '=', '=']
  | [a, b] => [b64Char (a / 4), b64Char (a % 4 * 16 + b / 16), b64Char (b % 16 * 4), '=']
  | a :: b :: c :: rest =>
    b64Char (a / 4) :: b64Char (a % 4 * 16 + b / 16) :: b64Char (b % 16 * 4 + c / 64) ::
      b64Char (c % 64) :: b64Encode rest

/-- Base64 decoding of the padded form `btoa` produces (`atob` additionally
tolerates unpadded input, which `btoa` never emits). -/
def b64Decode : Str → Option (List Nat)
  | [] => some []
  | c1 :: c2 :: c3 :: c4 :: rest =>
    if c3 = '=' then
      if c4 = '=' ∧ rest = [] then do
        let v1 ← b64Val c1
        let v2 ← b64Val c2
        pure [v1 * 4 + v2 / 16]
      else none
    else if c4 = '=' then
      if rest = [] then do
        let v1 ← b64Val c1
        let v2 ← b64Val c2
        let v3 ← b64Val c3
        pure [v1 * 4 + v2 / 16, v2 % 16 * 16 + v3 / 4]
      else none
    else do
      let v1 ← b64Val c1
      let v2 ← b64Val c2
      let v3 ← b64Val c3
      let v4 ← b64Val c4
      let tail ← b64Decode rest
      pure ((v1 * 4 + v2 / 16) :: (v2 % 16 * 16 + v3 / 4) :: (v3 % 4 * 64 + v4) :: tail)
  | _ => none

/-- `btoa`: base64 of a binary string; throws `InvalidCharacterError` (here
`none`) as soon as the string holds a code point above `U+00FF`. -/
def btoa (s : Str) : Option Str :=
  if s.all (fun c => c.toNat < 256) then some (b64Encode (s.map (·.toNat)))
  else none

/-- `atob`: inverse of `btoa`; `none` models the `InvalidCharacterError` on
malformed base64. -/
def atob (s : Str) : Option Str :=
  (b64Decode s).map (fun bytes => bytes.map Char.ofNat)

/-- The invocation data `POST /stream` receives and encodes: by the time
`btoa` runs, the handler has checked `tool` present and found in the map. -/
structure StreamInvocation where
  model : Str
  tool : Str
  parameters : List (Str × JVal)

/-- The JSON value `JSON.stringify` serializes for an invocation body. -/
def invToJVal (inv : StreamInvocation) : JVal :=
  .obj [("model".data, .str inv.model), ("tool".data, .str inv.tool),
    ("parameters".data, .obj inv.parameters)]

/-- Destructuring `const \x7b model, tool, parameters \x7d = invocationData`
after `JSON.parse`, keeping only well-typed results. -/
def invOfJVal : JVal → Option StreamInvocation
  | .obj fields =>
    match fields.lookup "model".data, fields.lookup "tool".data,
        fields.lookup "parameters".data with
    | some (.str m), some (.str t), some (.obj ps) => some ⟨m, t, ps⟩
    | _, _, _ => none
  | _ => none

/-- `const taskId = btoa(JSON.stringify(invocationData))` (part_000 line 324). -/
def encodeTask (inv : StreamInvocation) : Option Str :=
  btoa (stringifyJson (invToJVal inv))

/-- `invocationData = JSON.parse(atob(id))` plus the destructuring in
`onOpen` (part_000 lines 343–356). -/
def decodeTask (id : Str) : Option StreamInvocation :=
  (atob id).bind (fun d => (parseJson d).bind invOfJVal)

mutual

/-- Structural size of a JSON value, counting numbers and strings as one;
a fuel bound for `parseValue`. -/
def jsize : JVal → Nat
  | .arr es => 1 + jsizeList es
  | .obj fs => 1 + jsizeFields fs
  | _ => 1

/-- Summed sizes of array elements, plus one per element. -/
def jsizeList : List JVal → Nat
  | [] => 0
  | v :: rest => 1 + jsize v + jsizeList rest

/-- Summed sizes of object member values, plus one per member. -/
def jsizeFields : List (Str × JVal) → Nat
  | [] => 0
  | kv :: rest => 1 + jsize kv.2 + jsizeFields rest

end

/-! ## CallExecutor: parameter splitting over an explicit object store
(`processParameters` / `executeApiCall`, util.ts first revision)

JavaScript objects are heap references; to state frame properties the
caller's parameter bag lives in an explicit store and the embedding passes
the store through every statement that could mutate an object. -/

/-- A JS object holding the parameter bag: ordered own properties. -/
abbrev Bag := List (Str × JVal)

/-- A heap of bags; references are indices. -/
abbrev Store := List Bag

/-- Dereference. -/
def storeRead (σ : Store) (r : Nat) : Option Bag := σ.get? r

/-- Overwrite the object at a reference. -/
def storeWrite (σ : Store) (r : Nat) (b : Bag) : Store := σ.set r b

/-- Allocate a fresh object (`{ ...parameters }` creates one). -/
def storeAlloc (σ : Store) (b : Bag) : Store × Nat := (σ ++ [b], σ.length)

/-- Own-property read. -/
def bagGet (b : Bag) (key : Str) : Option JVal := b.lookup key

/-- The `in` operator on the parameter bag (own keys; the keys this code
base tests — `<in>-<name>` and `body` — never collide with prototype
properties). -/
def bagHas (b : Bag) (key : Str) : Bool := (b.lookup key).isSome

/-- `delete obj[key]`. -/
def bagDelete (b : Bag) (key : Str) : Bag := b.filter (fun kv => kv.1 ≠ key)

/-- `Map.set` / JS object assignment: overwrite in place, else append
(insertion order preserved). -/
def mapSet {α : Type} (m : List (Str × α)) (key : Str) (val : α) : List (Str × α) :=
  if m.any (fun kv => kv.1 = key) then
    m.map (fun kv => if kv.1 = key then (key, val) else kv)
  else m ++ [(key, val)]

/-- `Map.get`. -/
def mapGet {α : Type} (m : List (Str × α)) (key : Str) : Option α := m.lookup key

/-- The result record of `processParameters`: body (or `null`), query
pairs, path parameters and headers. -/
structure ProcResult where
  body : Option JVal
  queryParameters : List (Str × Str)
  pathParameters : List (Str × Str)
  headers : List (Str × Str)

/-- One iteration of the `for (const [key, value] of Object.entries(...))`
loop of `processParameters`. -/
def procEntry (acc : ProcResult) (kv : Str × JVal) : ProcResult :=
  let key := kv.1
  let value := kv.2
  if strStarts key ("query-".data) then
    let paramName := key.drop 6
    match value with
    | .arr elems =>
      { acc with queryParameters :=
          acc.queryParameters ++ elems.map (fun v => (paramName, jsToString v)) }
    | _ =>
      { acc with queryParameters :=
          acc.queryParameters ++ [(paramName, jsToString value)] }
  else if strStarts key ("path-".data) then
    { acc with pathParameters := mapSet acc.pathParameters (key.drop 5) (jsToString value) }
  else if strStarts key ("header-".data) then
    { acc with headers := mapSet acc.headers (key.drop 7) (jsToString value) }
  else if strStarts key ("cookie-".data) then
    let cookieName := key.drop 7
    let pair := cookieName ++ '=' :: jsToString value
    let newVal :=
      match mapGet acc.headers ("Cookie".data) with
      | some existing => if existing ≠ [] then existing ++ "; ".data ++ pair else pair
      | none => pair
    { acc with headers := mapSet acc.headers ("Cookie".data) newVal }
  else acc

/-- `processParameters` (util.ts): copies the caller's bag, deletes `body`
from the copy when truthy, and splits the remaining entries by key form. -/
def processParametersH (σ : Store) (r : Nat) : Store × ProcResult :=
  let bag := (storeRead σ r).getD []
  let alloc := storeAlloc σ bag
  let σ1 := alloc.1
  let copyRef := alloc.2
  let copy0 := (storeRead σ1 copyRef).getD []
  let bodyVal := bagGet copy0 ("body".data)
  let afterBody :=
    if truthyOpt bodyVal then
      (storeWrite σ1 copyRef (bagDelete copy0 ("body".data)), bodyVal)
    else (σ1, none)
  let σ2 := afterBody.1
  let entries := (storeRead σ2 copyRef).getD []
  (σ2, entries.foldl procEntry ⟨afterBody.2, [], [], []⟩)

/-- An OpenAPI security scheme as used by `executeApiCall`. -/
structure SecurityScheme where
  type : Str
  name : Option Str
  inLoc : Option Str
  scheme : Option Str

/-- The outbound request handed to the platform `fetch`. -/
structure FetchRequest where
  url : Str
  method : Str
  headers : List (Str × Str)
  body : Option Str

/-- The platform `Response` surface `executeApiCall` consumes. -/
structure FetchResponse where
  ok : Bool
  status : Nat
  statusText : Str
  contentType : Option Str
  bodyText : Str

/-- The decoded output of a call: parsed JSON or raw text. -/
inductive ApiOutput where
  | fromJson (v : JVal) : ApiOutput
  | text (s : Str) : ApiOutput

/-- `s.toUpperCase()`. -/
def strUpper (s : Str) : Str := s.map Char.toUpper

/-- Fold of the `header-*` entries over the default request headers. -/
def applyCustomHeaders (base : List (Str × Str)) (hs : List (Str × Str)) :
    List (Str × Str) :=
  hs.foldl (fun h kv => mapSet h kv.1 kv.2) base

/-- One security scheme's contribution to the request headers
(`executeApiCall`'s authentication loop body). -/
def applyScheme (params : Bag) (h : List (Str × Str)) (scheme : SecurityScheme) :
    List (Str × Str) :=
  if scheme.type = "apiKey".data ∧ scheme.inLoc = some ("header".data) ∧
      (scheme.name.map List.isEmpty |>.getD true) = false then
    let schemeName := scheme.name.getD []
    let apiKeyParam := "header-".data ++ schemeName
    match bagGet params apiKeyParam with
    | some v => if truthy v then mapSet h schemeName (jsToString v) else h
    | none => h
  else if scheme.type = "http".data ∧ scheme.scheme = some ("bearer".data) then
    let auth := bagGet params ("authorization".data)
    let authHdr := bagGet params ("header-Authorization".data)
    if truthyOpt auth then
      mapSet h ("Authorization".data) (jsToString (auth.getD .null))
    else if truthyOpt authHdr then
      mapSet h ("Authorization".data) (jsToString (authHdr.getD .null))
    else h
  else h

/-- `executeApiCall` (util.ts first revision), with the platform `fetch`
supplied as an oracle.  Returns the final store and either the decoded
output or the thrown error message. -/
def executeApiCallH (σ : Store) (r : Nat) (host method path contentType : Str)
    (securitySchemes : Option (List (Str × SecurityScheme)))
    (parseJsonBody : Str → Option JVal)
    (doFetch : FetchRequest → FetchResponse) : Store × Except Str ApiOutput :=
  let proc := processParametersH σ r
  let σ1 := proc.1
  let pr := proc.2
  let url := buildApiUrl host path pr.pathParameters pr.queryParameters
  let requestHeaders0 : List (Str × Str) := [("Content-Type".data, contentType)]
  let requestHeaders1 := applyCustomHeaders requestHeaders0 pr.headers
  let params := (storeRead σ1 r).getD []
  let requestHeaders2 :=
    match securitySchemes with
    | none => requestHeaders1
    | some schemes => schemes.foldl (fun h kv => applyScheme params h kv.2) requestHeaders1
  let bodyOpt :=
    if truthyOpt pr.body ∧ ¬ (strUpper method = "GET".data ∨ strUpper method = "HEAD".data) then
      some (if contentType = "application/json".data then
          stringifyJson (pr.body.getD .null)
        else jsToString (pr.body.getD .null))
    else none
  let resp := doFetch ⟨url, method, requestHeaders2, bodyOpt⟩
  let result : Except Str ApiOutput :=
    if ¬ resp.ok then
      let errorBody := resp.bodyText
      .error ("API call failed: ".data ++ (Nat.repr resp.status).data ++ ' ' ::
        resp.statusText ++ (if errorBody ≠ [] then " - ".data ++ errorBody else []))
    else
      match resp.contentType with
      | some ct =>
        if strContains ct ("application/json".data) then
          match parseJsonBody resp.bodyText with
          | some v => .ok (.fromJson v)
          | none => .error ("SyntaxError: Unexpected token in JSON".data)
        else .ok (.text resp.bodyText)
      | none => .ok (.text resp.bodyText)
  (σ1, result)

/-! ## Catalog data model (types.ts / mcp.ts) -/

/-- The object schema `createTools` builds for a tool's parameters
(`{ type: 'object', properties, required }`). -/
structure ToolParams where
  properties : List (Str × JVal)
  required : List Str

/-- One entry of the Tools catalog. -/
structure Tool where
  id : Str
  name : Str
  description : Str
  parameters : Option ToolParams
  returns : Option (List JVal)

/-- One entry of the Models catalog. -/
structure Model where
  id : Str
  name : Str
  description : Str
  capabilities : List Str
  tools_endpoint : Str

/-- One prompt argument. -/
structure PromptArg where
  name : Str
  description : Str
  required : Bool

/-- One entry of the Prompts catalog. -/
structure Prompt where
  name : Str
  description : Str
  arguments : Option (List PromptArg)

/-! ## ProtocolGateway (createMCP in the current mcp.ts revision) -/

/-- A JSON-RPC id: string, number, or explicit `null`; an absent id is
`Option.none` at use sites. -/
inductive RpcId where
  | str (s : Str)
  | num (n : Int)
  | jsNull

/-- The `params` member as destructured by `tools/call`
(`const { name, arguments } = request.params || {}`). -/
structure RpcParams where
  name : Option Str
  arguments : Option Bag

/-- A parsed JSON-RPC request. -/
structure JsonRpcRequest where
  id : Option RpcId
  method : Str
  params : Option RpcParams

/-- A `tools/list` entry (`{ name: id, description: description || name,
inputSchema: parameters || empty-object-schema }`; `none` stands for the
empty-object-schema fallback). -/
structure McpToolDesc where
  name : Str
  description : Str
  inputSchema : Option ToolParams

/-- An item of `result.content`. -/
structure ContentItem where
  type : Str
  text : Str

/-- The `result` member of each JSON-RPC success response the dispatcher
produces. -/
inductive RpcResult where
  | initializeResult (protocolVersion : Str) (serverName : Str) (serverVersion : Str)
  | toolsList (tools : List McpToolDesc)
  | toolCall (content : List ContentItem) (isError : Bool)
  | resourcesList
  | resourceTemplatesList
  | promptsList (prompts : List Prompt)
  | emptyResult

/-- The `error` member of a JSON-RPC error response. -/
structure RpcError where
  code : Int
  message : Str
  errorData : Option Str

/-- A JSON-RPC response envelope (`jsonrpc: '2.0'` is constant and
omitted from the model). -/
structure JsonRpcResponse where
  id : Option RpcId
  result : Option RpcResult
  error : Option RpcError

/-- What the `/sse` POST handler replies: a JSON body with an HTTP status,
or `204 No Content`. -/
inductive SseReply where
  | json (resp : JsonRpcResponse) (status : Nat)
  | noContent (status : Nat)

/-- The arguments of one `executeApiCall` invocation (the CallExecutor
interface consumed by the gateway). -/
structure ExecRequest where
  host : Str
  method : Str
  path : Str
  parameters : Bag
  contentType : Str
  securitySchemes : Option (List (Str × SecurityScheme))

/-- Outcome of an awaited `executeApiCall`: resolved output, or a thrown
error whose `.message` is carried (a non-`Error` throw surfaces as the
literal message `Unknown error`, which the oracle models directly). -/
inductive ExecOutcome where
  | success (output : ApiOutput)
  | failure (message : Str)

/-- `typeof output === 'string' ? output : JSON.stringify(output, null, 2)`. -/
def renderOutput : ApiOutput → Str
  | .text s => s
  | .fromJson v => ppJson 0 v

/-- Truthiness of a possibly-absent JS string. -/
def truthyStr : Option Str → Bool
  | none => false
  | some s => s ≠ []

/-- `v || d` for strings (`d` when `v` is absent or empty). -/
def jsOrStr (v : Option Str) (d : Str) : Str :=
  match v with
  | some s => if s ≠ [] then s else d
  | none => d

/-- `String.prototype.split` with a one-character separator. -/
def splitChar (sep : Char) : Str → List Str
  | [] => [[]]
  | c :: rest =>
    match splitChar sep rest with
    | [] => [[c]]
    | s :: ss => if c = sep then [] :: s :: ss else (c :: s) :: ss

/-- `const [method, path] = map[tool].split(' ')`. -/
def splitMethodPath (entry : Str) : Str × Str :=
  let parts := splitChar ' ' entry
  ((parts.get? 0).getD [], (parts.get? 1).getD [])

/-- The methods of the `/sse` dispatch table (also listed in the GET
capability descriptor). -/
def sseMethods : List Str :=
  ["initialize".data, "tools/list".data, "tools/call".data, "resources/list".data,
    "resources/templates/list".data, "prompts/list".data,
    "notifications/initialized".data, "ping".data]

/-- The per-request state `createMCP` closes over: host, document metadata
and the catalogs built by `createTools` / `createModels` / `createPrompts`. -/
structure GatewayEnv where
  host : Str
  title : Str
  version : Option Str
  securitySchemes : Option (List (Str × SecurityScheme))
  tools : List Tool
  invocationMap : List (Str × Str)
  contentTypes : List (Str × Str)
  prompts : List Prompt
  models : List Model

/-- The `tools/list` projection of one tool. -/
def mcpToolDescOf (tool : Tool) : McpToolDesc :=
  { name := tool.id,
    description := if tool.description ≠ [] then tool.description else tool.name,
    inputSchema := tool.parameters }

/-- The `tools/call` branch after a successful map lookup: build the
CallExecutor request, await it, and wrap the outcome. -/
def toolCallRun (env : GatewayEnv) (exec : ExecRequest → ExecOutcome)
    (requestId : Option RpcId) (toolName : Str) (args : Option Bag) : SseReply :=
  let entry := (mapGet env.invocationMap toolName).getD []
  let mp := splitMethodPath entry
  let execReq : ExecRequest :=
    ⟨env.host, mp.1, mp.2, args.getD [],
      jsOrStr (mapGet env.contentTypes toolName) ("application/json".data),
      env.securitySchemes⟩
  match exec execReq with
  | .success output =>
    .json ⟨requestId, some (.toolCall [⟨"text".data, renderOutput output⟩] false), none⟩ 200
  | .failure msg =>
    .json ⟨requestId,
      some (.toolCall [⟨"text".data, "Error calling tool: ".data ++ msg⟩] true), none⟩ 200

/-- The `/sse` POST JSON-RPC dispatcher of `createMCP` (current revision):
`body = none` models a request body that failed to parse as JSON. -/
def handleSsePost (env : GatewayEnv) (exec : ExecRequest → ExecOutcome)
    (body : Option JsonRpcRequest) : SseReply :=
  match body with
  | none => .json ⟨some .jsNull, none, some ⟨-32700, "Parse error".data, none⟩⟩ 400
  | some request =>
    if request.method = "initialize".data then
      .json ⟨request.id,
        some (.initializeResult ("2024-11-05".data) env.title
          (jsOrStr env.version ("1.0.0".data))), none⟩ 200
    else if request.method = "tools/list".data then
      .json ⟨request.id, some (.toolsList (env.tools.map mcpToolDescOf)), none⟩ 200
    else if request.method = "tools/call".data then
      let toolName := request.params.bind (·.name)
      let args := request.params.bind (·.arguments)
      if ¬ truthyStr toolName ∨ ¬ truthyStr (mapGet env.invocationMap (toolName.getD [])) then
        .json ⟨request.id, none,
          some ⟨-32602, "Invalid params".data, some ("Tool not found".data)⟩⟩ 200
      else toolCallRun env exec request.id (toolName.getD []) args
    else if request.method = "resources/list".data then
      .json ⟨request.id, some .resourcesList, none⟩ 200
    else if request.method = "resources/templates/list".data then
      .json ⟨request.id, some .resourceTemplatesList, none⟩ 200
    else if request.method = "prompts/list".data then
      .json ⟨request.id, some (.promptsList env.prompts), none⟩ 200
    else if request.method = "notifications/initialized".data then
      .noContent 204
    else if request.method = "ping".data then
      .json ⟨request.id, some .emptyResult, none⟩ 200
    else
      .json ⟨request.id, none, some ⟨-32601, "Method not found".data, none⟩⟩ 404

/-! ## Legacy `/invoke` handler (createMCP) -/

/-- The parsed `/invoke` (and `/stream`) request body. -/
structure MCPRequestM where
  model : Option Str
  tool : Option Str
  parameters : Bag

/-- The replies `POST /invoke` can produce. -/
inductive InvokeReply where
  | modelNotFound
  | toolNotSpecified
  | toolNotFound (availableTools : List Str)
  | missingRequired (missing : List Str)
  | invokeData (model : Str) (output : ApiOutput)
  | apiCallFailed (message : Str) (tool : Str) (model : Str)

/-- The HTTP status `c.json(..., status)` attaches to each reply. -/
def invokeStatus : InvokeReply → Nat
  | .modelNotFound => 404
  | .toolNotSpecified => 400
  | .toolNotFound _ => 404
  | .missingRequired _ => 400
  | .invokeData _ _ => 200
  | .apiCallFailed _ _ _ => 500

/-- `invocationData.model || models.items[0]?.id`. -/
def effectiveModel (env : GatewayEnv) (req : MCPRequestM) : Option Str :=
  if truthyStr req.model then req.model else (env.models.head?).map (·.id)

/-- `POST /invoke`: model/tool lookup, required-parameter validation, then
CallExecutor.  The second component records the upstream call issued (at
most one), so "no upstream call" is observable. -/
def handleInvoke (env : GatewayEnv) (exec : ExecRequest → ExecOutcome)
    (req : MCPRequestM) : InvokeReply × Option ExecRequest :=
  let model := effectiveModel env req
  match env.models.find? (fun m => model = some m.id) with
  | none => (.modelNotFound, none)
  | some _ =>
    if ¬ truthyStr req.tool then (.toolNotSpecified, none)
    else
      let tool := req.tool.getD []
      if ¬ truthyStr (mapGet env.invocationMap tool) then
        (.toolNotFound (env.invocationMap.map (·.1)), none)
      else
        let proceed : Unit → InvokeReply × Option ExecRequest := fun _ =>
          let entry := (mapGet env.invocationMap tool).getD []
          let mp := splitMethodPath entry
          let execReq : ExecRequest :=
            ⟨env.host, mp.1, mp.2, req.parameters,
              jsOrStr (mapGet env.contentTypes tool) ("application/json".data),
              env.securitySchemes⟩
          match exec execReq with
          | .success output => (.invokeData (model.getD []) output, some execReq)
          | .failure msg => (.apiCallFailed msg tool (model.getD []), some execReq)
        let toolDef := env.tools.find? (fun t => t.id = tool)
        match toolDef.bind (·.parameters) with
        | some ps =>
          let missingParams := ps.required.filter (fun p => ¬ bagHas req.parameters p)
          if missingParams.length > 0 then (.missingRequired missingParams, none)
          else proceed ()
        | none => proceed ()

/-! ## SchemaResolver (types.ts, current revision) -/

/-- Parse a decimal string (array index candidates). -/
def strToNat? (s : Str) : Option Nat :=
  if s ≠ [] ∧ s.all (·.isDigit) then
    some (s.foldl (fun a c => a * 10 + (c.toNat - 48)) 0)
  else none

/-- Indexing `v[key]` for the receivers the resolver navigates. -/
def jsIndex (v : JVal) (key : Str) : Option JVal :=
  match v with
  | .obj fields => fields.lookup key
  | .arr elems => (strToNat? key).bind (fun i => elems.get? i)
  | _ => none

/-- The `in` operator on a receiver already known to be of object type (no
`TypeError` possible). -/
def jsInSafe (key : Str) (v : JVal) : Bool :=
  match v with
  | .obj fields => fields.any (fun kv => kv.1 = key)
  | .arr elems => decide (∃ i < elems.length, (Nat.repr i).data = key)
  | _ => false

/-- `Object.entries` for the values this code base spreads or iterates. -/
def jsEntries (v : JVal) : List (Str × JVal) :=
  match v with
  | .obj fields => fields
  | .arr elems => elems.enum.map (fun ie => ((Nat.repr ie.1).data, ie.2))
  | .str s => s.enum.map (fun ic => ((Nat.repr ic.1).data, .str [ic.2]))
  | _ => []

/-- The distinguished error standing for unbounded recursion in the source
(no cycle detection exists there). -/
def fuelError : Str := "resolver recursion limit".data

/-- The navigation loop over `$defs` path segments
(`if (!cur || !part || !(part in cur)) fail; cur = cur[part]`); the `in`
operator throws on truthy primitive receivers. -/
def navDefs : JVal → List Str → Except Str (Option JVal)
  | cur, [] => .ok (some cur)
  | cur, part :: parts =>
    if ¬ truthy cur then .ok none
    else if part = [] then .ok none
    else do
      let b ← jsIn part cur
      if b then navDefs ((jsIndex cur part).getD .null) parts else .ok none

/-- Split on `/`. -/
def splitOnSlash (s : Str) : List Str := splitChar '/' s

/-- The regex `^([^\/]+)\/\$defs\/(.+)$` applied to what follows
`#/components/schemas/`: the component name and the `$defs` path segments. -/
def componentDefsMatch (remainder : Str) : Option (Str × List Str) :=
  match splitOnSlash remainder with
  | name :: seg :: rest =>
    if name ≠ [] ∧ seg = "$defs".data ∧ rest ≠ [] ∧ rest ≠ [[]] then
      some (name, rest)
    else none
  | _ => none

/-- The ambiguity warning `resolveDefsReference` logs (structured capture
of the `console.warn` interpolation: every matching schema name and the
explicit component-qualified reference recommended instead). -/
structure DefsWarning where
  ambiguousRef : Str
  matchNames : List Str
  suggestion : Str

/-- A media object (`{ schema }`). -/
structure ResponseMedia where
  schema : Option JVal

/-- A component response object. -/
structure ResponseObj where
  description : Str
  content : Option (List (Str × ResponseMedia))

/-- A response in an operation: direct object or `$ref`. -/
inductive ResponseOrRef where
  | ref (r : Str)
  | resp (response : ResponseObj)

/-- An OpenAPI operation parameter (`in` is `inLoc`). -/
structure OpenAPIParam where
  name : Str
  inLoc : Str
  description : Option Str
  required : Bool
  schema : JVal

/-- An operation request body (`content` models presence of the key with
an object value). -/
structure RequestBody where
  required : Bool
  content : Option (List (Str × ResponseMedia))

/-- An OpenAPI operation. -/
structure Operation where
  summary : Option Str
  operationId : Option Str
  description : Option Str
  parameters : Option (List OpenAPIParam)
  requestBody : Option RequestBody
  responses : Option (List (Str × ResponseOrRef))

/-- The parsed OpenAPI document (components flattened; `rootDefs` is the
untyped `(openapi as any).$defs`). -/
structure OpenAPIDoc where
  title : Str
  description : Str
  version : Option Str
  servers : List Str
  schemas : List (Str × JVal)
  responses : List (Str × ResponseObj)
  securitySchemes : Option (List (Str × SecurityScheme))
  rootDefs : Option JVal
  paths : List (Str × List (Str × Operation))

/-- The component-schema-wide `$defs` search (step 4 of bare-`$defs`
resolution): every component whose `$defs` navigation yields a truthy
value, in enumeration order. -/
def compDefsSearch (schemas : List (Str × JVal)) (defPath : List Str) :
    Except Str (List (Str × JVal)) :=
  match schemas with
  | [] => .ok []
  | (name, node) :: rest => do
    let hd ←
      if truthy node ∧ isObjType node = true ∧ truthyOpt (jsGet node ("$defs".data)) then do
        let r ← navDefs ((jsGet node ("$defs".data)).getD .null) defPath
        match r with
        | some cur => if truthy cur then pure [(name, cur)] else pure ([] : List (Str × JVal))
        | none => pure []
      else pure []
    let tl ← compDefsSearch rest defPath
    pure (hd ++ tl)

/-- `resolveDefsReference` (types.ts current revision): component-qualified
`$defs` references resolve only inside that component; bare `#/$defs/...`
references try the local schema context, then the document root `$defs`,
then every component's `$defs` (first match wins, ambiguity logs a
warning).  The returned list carries the warnings logged. -/
def resolveDefsReference (doc : OpenAPIDoc) (ref : Str) (localSchema : Option JVal) :
    Except Str (Option JVal × List DefsWarning) :=
  if ref = [] then .ok (none, [])
  else if strStarts ref ("#/components/schemas/".data) then
    let remainder := ref.drop ("#/components/schemas/".data).length
    match componentDefsMatch remainder with
    | some nameAndPath =>
      match doc.schemas.lookup nameAndPath.1 with
      | some schema =>
        if truthy schema ∧ isObjType schema = true ∧
            jsInSafe ("$defs".data) schema = true then do
          let r ← navDefs ((jsIndex schema ("$defs".data)).getD .null) nameAndPath.2
          .ok (r, [])
        else .ok (none, [])
      | none => .ok (none, [])
    | none => .ok (none, [])
  else if strStarts ref ("#/$defs/".data) then
    let defPath := splitOnSlash (ref.drop ("#/$defs/".data).length)
    do
    let localHit ←
      match localSchema with
      | some ls =>
        if truthy ls ∧ isObjType ls = true ∧ truthyOpt (jsGet ls ("$defs".data)) then do
          let r ← navDefs ((jsGet ls ("$defs".data)).getD .null) defPath
          match r with
          | some cur => if truthy cur then pure (some cur) else pure (none : Option JVal)
          | none => pure none
        else pure none
      | none => pure none
    match localHit with
    | some v => .ok (some v, [])
    | none => do
      let rootHit ←
        match doc.rootDefs with
        | some rd =>
          if truthy rd then do
            let r ← navDefs rd defPath
            match r with
            | some cur => if truthy cur then pure (some cur) else pure (none : Option JVal)
            | none => pure none
          else pure none
        | none => pure none
      match rootHit with
      | some v => .ok (some v, [])
      | none => do
        let found ← compDefsSearch doc.schemas defPath
        match found with
        | [] => .ok (none, [])
        | m1 :: rest =>
          match rest with
          | [] => .ok (some m1.2, [])
          | _ :: _ =>
            .ok (some m1.2,
              [⟨ref, m1.1 :: rest.map (·.1),
                "#/components/schemas/".data ++ m1.1 ++ "/$defs/".data ++
                  List.intercalate ("/".data) defPath⟩])
  else .ok (none, [])

/-- Strict equality `schema.type === '<tag>'`. -/
def isTypeTag (schema : JVal) (tag : Str) : Bool :=
  match jsGet schema ("type".data) with
  | some (.str t) => t = tag
  | _ => false

/-- `{ ...base, key: value, ... }`: spread the entries of `extra` over an
association list (overwrite in place, append new keys). -/
def objSpread (base : List (Str × JVal)) (extra : JVal) : List (Str × JVal) :=
  (jsEntries extra).foldl (fun fields kv => mapSet fields kv.1 kv.2) base

/-- `{ ...schema, key: newVal }` on an object value. -/
def objSetField (v : JVal) (key : Str) (newVal : JVal) : JVal :=
  match v with
  | .obj fields => .obj (mapSet fields key newVal)
  | other => other

/-- `findSchema` (types.ts current revision) with explicit fuel; resolves
`$ref`s (direct component references and `$defs` forms), recurses through
object properties and referenced array items, and passes primitives
through.  `Except.error` carries a thrown message; `Option.none` models a
returned `null`.  The property loop (`resolveProps` in spirit) is the
inline fold: falsy names/values are skipped, `$ref` properties are
resolved (a `null` result drops the property), others pass through. -/
def findSchema : Nat → OpenAPIDoc → JVal → Option JVal → Except Str (Option JVal)
  | 0, _, _, _ => .error fuelError
  | fuel + 1, doc, schema, rootSchema =>
    if ¬ truthy schema then .ok none
    else
      let contextSchema :=
        if truthyOpt rootSchema then rootSchema
        else if isObjType schema = true ∧ jsInSafe ("$defs".data) schema = true then
          some schema
        else none
      do
      let hasRef ← jsIn ("$ref".data) schema
      if hasRef then
        match (jsIndex schema ("$ref".data)).getD .null with
        | .str r =>
          if r = [] then .ok none
          else if strStarts r ("#/components/schemas/".data) ∧
              ¬ strContains r ("/$defs/".data) = true then
            match doc.schemas.lookup (r.drop ("#/components/schemas/".data).length) with
            | none => .ok none
            | some foundSchema =>
              if truthy foundSchema then .ok (some foundSchema) else .ok none
          else do
            let dr ← resolveDefsReference doc r contextSchema
            match dr.1 with
            | some defsResult =>
              if truthy defsResult then
                if truthyOpt (jsGet defsResult ("$ref".data)) then
                  findSchema fuel doc defsResult contextSchema
                else .ok (some defsResult)
              else .error ("Unsupported $ref format: ".data ++ r)
            | none => .error ("Unsupported $ref format: ".data ++ r)
        | _ => .ok none
      else
        if isTypeTag schema ("object".data) = true ∧
            truthyOpt (jsGet schema ("properties".data)) then do
          let props := (jsGet schema ("properties".data)).getD .null
          let resolvedProperties ← (jsEntries props).foldlM (fun acc pkv => do
              if pkv.1 = [] ∨ ¬ truthy pkv.2 then pure acc
              else do
                let hasRefP ← jsIn ("$ref".data) pkv.2
                if hasRefP then do
                  let res ← findSchema fuel doc pkv.2 contextSchema
                  match res with
                  | some v =>
                    if truthy v then pure (acc ++ [(pkv.1, v)]) else pure acc
                  | none => pure acc
                else pure (acc ++ [(pkv.1, pkv.2)])) ([] : List (Str × JVal))
          .ok (some (objSetField schema ("properties".data) (.obj resolvedProperties)))
        else if isTypeTag schema ("array".data) = true ∧
            truthyOpt (jsGet schema ("items".data)) then do
          let items := (jsGet schema ("items".data)).getD .null
          let itemsHasRef ← jsIn ("$ref".data) items
          if itemsHasRef then do
            let resolvedItems ← findSchema fuel doc items contextSchema
            .ok (some (objSetField schema ("items".data)
              (match resolvedItems with
               | some ri =>
                 if truthy ri then ri else .obj [("type".data, .str ("null".data))]
               | none => .obj [("type".data, .str ("null".data))])))
          else .ok (some schema)
        else .ok (some schema)

/-- What `findResponseSchema` hands back: a component response object, or
the raw value a `$defs` reference resolved to. -/
inductive ResponseFound where
  | respObj (r : ResponseObj)
  | rawDefs (v : JVal)

/-- Resolve the `$ref` content schemas of a response in place (a failed or
falsy resolution keeps the original entry). -/
def resolveRespContent (fuel : Nat) (doc : OpenAPIDoc)
    (content : List (Str × ResponseMedia)) : Except Str (List (Str × ResponseMedia)) :=
  match content with
  | [] => .ok []
  | (key, media) :: rest => do
    let hd ←
      if key = [] ∨ ¬ truthyOpt media.schema then pure (key, media)
      else do
        let s := media.schema.getD .null
        let hasRef ← jsIn ("$ref".data) s
        if hasRef then do
          let res ← findSchema fuel doc s none
          match res with
          | some v => if truthy v then pure (key, ⟨some v⟩) else pure (key, media)
          | none => pure (key, media)
        else pure (key, media)
    let tl ← resolveRespContent fuel doc rest
    pure (hd :: tl)

/-- `findResponseSchema` (types.ts current revision), modelled purely: the
source writes the resolved content back into the shared document; the
model returns the resolved response instead (the claims at hand consume
only the returned value). -/
def findResponseSchema (fuel : Nat) (doc : OpenAPIDoc) (ref : Str) :
    Except Str ResponseFound :=
  if ref = [] then .error ("Invalid parameters for findResponseSchema".data)
  else if strStarts ref ("#/components/responses/".data) then
    match doc.responses.lookup (ref.drop ("#/components/responses/".data).length) with
    | none => .error ("Response not found: ".data ++ ref)
    | some response =>
      match response.content with
      | some content => do
        let resolved ← resolveRespContent fuel doc content
        .ok (.respObj ⟨response.description, some resolved⟩)
      | none => .ok (.respObj response)
  else do
    let dr ← resolveDefsReference doc ref none
    match dr.1 with
    | some defsResult =>
      if truthy defsResult then .ok (.rawDefs defsResult)
      else .error ("Unsupported $ref format: ".data ++ ref)
    | none => .error ("Unsupported $ref format: ".data ++ ref)

/-! ## CatalogBuilder (`createTools`, part_000 / current mcp.ts revision) -/

/-- The HTTP methods `createTools` retains. -/
def validMethods : List Str :=
  ["get".data, "post".data, "put".data, "delete".data, "patch".data,
    "head".data, "options".data]

/-- `s.toLowerCase()`. -/
def strLower (s : Str) : Str := s.map Char.toLower

/-- `path.replace(/[^a-z0-9]/gi, '_')` then `.replace(/^_+|_+$/g, '')`. -/
def sanitizeId (s : Str) : Str :=
  let replaced := s.map (fun c => if c.isAlphanum then c else '_')
  ((replaced.dropWhile (· = '_')).reverse.dropWhile (· = '_')).reverse

/-- The derived operation id: declared `operationId` (when truthy) or
`<method>_<sanitized path>`. -/
def effOperationId (method path : Str) (op : Operation) : Str :=
  jsOrStr op.operationId (method ++ '_' :: sanitizeId path)

/-- Path-parameter validation: every `in: path` parameter must occur in
the path as `{name}` or `:name`. -/
def pathParamsOk (path : Str) (op : Operation) : Bool :=
  match op.parameters with
  | none => true
  | some params =>
    (params.filter (fun p => p.inLoc = "path".data)).all
      (fun p => strContains path (bracePat p.name) || strContains path (colonPat p.name))

/-- `{ description: param.description || '', ...schema }`. -/
def mkParamProp (descr : Option Str) (schema : JVal) : JVal :=
  .obj (objSpread [("description".data, .str (descr.getD []))] schema)

/-- The `required` filter over the collected parameter keys. -/
def computeRequired (op : Operation) (paramKeys : List Str) : List Str :=
  paramKeys.filter (fun name =>
    match op.parameters with
    | some params =>
      match params.find? (fun p => p.inLoc ++ '-' :: p.name = name) with
      | some p => p.required
      | none => false
    | none =>
      if name = "body".data then
        match op.requestBody with
        | some rb => rb.required
        | none => false
      else false)

/-- `{ description, ...resolved-schema }` for one `returns` entry. -/
def mkRetSchema (desc : JVal) (res : JVal) : JVal :=
  .obj (objSpread [("description".data, desc)] res)

/-- The `{ type: 'null' }` placeholder for contentless responses. -/
def nullTypeSchema : JVal := .obj [("type".data, .str ("null".data))]

/-- Build the `oneOf` members contributed by one response's content map. -/
def buildRespSchemas (fuel : Nat) (doc : OpenAPIDoc) (desc : JVal)
    (entries : List (Str × Option JVal)) : Except Str (List JVal) :=
  match entries with
  | [] => .ok []
  | (_, sch?) :: rest => do
    let hd ←
      match sch? with
      | some s =>
        if truthy s then do
          let res ← findSchema fuel doc s none
          pure [mkRetSchema desc (res.getD .null)]
        else pure ([] : List JVal)
      | none => pure []
    let tl ← buildRespSchemas fuel doc desc rest
    pure (hd ++ tl)

/-- `schemas.length > 0 ? schemas : [{ type: 'null' }]`. -/
def orNullSchema (schemas : List JVal) : List JVal :=
  if schemas.length > 0 then schemas else [nullTypeSchema]

/-- The `oneOf` members contributed by one declared response. -/
def returnsOfResponse (fuel : Nat) (doc : OpenAPIDoc) (r : ResponseOrRef) :
    Except Str (List JVal) :=
  match r with
  | .resp response => do
    let entries := (response.content.getD []).map (fun kv => (kv.1, kv.2.schema))
    let schemas ← buildRespSchemas fuel doc (.str response.description) entries
    .ok (orNullSchema schemas)
  | .ref refStr => do
    let found ← findResponseSchema fuel doc refStr
    match found with
    | .respObj robj =>
      match robj.content with
      | some content => do
        let entries := content.map (fun kv => (kv.1, kv.2.schema))
        let schemas ← buildRespSchemas fuel doc (.str robj.description) entries
        .ok (orNullSchema schemas)
      | none => .ok [nullTypeSchema]
    | .rawDefs v =>
      if truthyOpt (jsGet v ("content".data)) then do
        let c := (jsGet v ("content".data)).getD .null
        let entries := (jsEntries c).map (fun kv => (kv.1, jsGet kv.2 ("schema".data)))
        let schemas ← buildRespSchemas fuel doc ((jsGet v ("description".data)).getD .null)
          entries
        .ok (orNullSchema schemas)
      else .ok [nullTypeSchema]

/-- The whole `returns` union (`oneOf` over all declared responses). -/
def computeReturns (fuel : Nat) (doc : OpenAPIDoc) (op : Operation) :
    Except Str (Option (List JVal)) :=
  match op.responses with
  | none => .ok none
  | some responses => do
    let lists ← responses.mapM (fun kv => returnsOfResponse fuel doc kv.2)
    .ok (some lists.flatten)

/-- Content-type selection and the `body` parameter slot. -/
def computeCtBody (fuel : Nat) (doc : OpenAPIDoc) (op : Operation) :
    Except Str (Str × List (Str × JVal)) :=
  match op.requestBody with
  | some rb =>
    match rb.content with
    | some content =>
      let contentType := jsOrStr ((content.head?).map (·.1)) ("application/json".data)
      (match content.lookup ("application/json".data) with
       | some media =>
         match media.schema with
         | some s =>
           if truthy s then do
             let schema ← findSchema fuel doc s none
             pure (contentType, [("body".data, schema.getD .null)])
           else pure (contentType, [])
         | none => pure (contentType, [])
       | none => pure (contentType, []))
    | none => .ok ("application/json".data, [])
  | none => .ok ("application/json".data, [])

/-- The named-parameter loop: each declared parameter contributes the
property `<in>-<name>` holding its resolved schema plus description. -/
def buildParams (fuel : Nat) (doc : OpenAPIDoc) (op : Operation)
    (init : List (Str × JVal)) : Except Str (List (Str × JVal)) :=
  match op.parameters with
  | none => .ok init
  | some params =>
    params.foldlM (fun acc param => do
        let res ← findSchema fuel doc param.schema none
        pure (mapSet acc (param.inLoc ++ '-' :: param.name)
          (mkParamProp param.description (res.getD .null)))) init

/-- Everything computed for one accepted operation: the tool and its
content type (in the source's evaluation order, so a thrown resolution
error matches). -/
def buildAccepted (fuel : Nat) (doc : OpenAPIDoc) (path method : Str) (op : Operation)
    (opId : Str) : Except Str (Tool × Str) := do
  let ctBody ← computeCtBody fuel doc op
  let withParams ← buildParams fuel doc op ctBody.2
  let parameters0 : Option ToolParams :=
    if withParams.length > 0 then
      some ⟨withParams, computeRequired op (withParams.map (·.1))⟩
    else none
  let returns ← computeReturns fuel doc op
  pure ({ id := opId,
          name := jsOrStr op.summary (strUpper method ++ ' ' :: path),
          description := op.description.getD [],
          parameters := parameters0,
          returns := returns }, ctBody.1)

/-- The accumulating state of the `createTools` iteration. -/
structure CTState where
  seen : List Str
  items : List Tool
  toolMap : List (Str × Str)
  contentTypes : List (Str × Str)

/-- Processing of one `(path, method, operation)` entry: skip invalid
methods, operations with unmatched path parameters, and duplicate
operation ids; otherwise build the tool and extend the three outputs. -/
def stepOp (fuel : Nat) (doc : OpenAPIDoc) (st : CTState)
    (e : Str × Str × Operation) : Except Str CTState :=
  if ¬ validMethods.contains (strLower e.2.1) then .ok st
  else if ¬ pathParamsOk e.1 e.2.2 then .ok st
  else
    let opId := effOperationId e.2.1 e.1 e.2.2
    if st.seen.contains opId then .ok st
    else do
      let built ← buildAccepted fuel doc e.1 e.2.1 e.2.2 opId
      .ok { seen := st.seen ++ [opId],
            items := st.items ++ [built.1],
            toolMap := st.toolMap ++ [(opId, strUpper e.2.1 ++ ' ' :: e.1)],
            contentTypes := st.contentTypes ++ [(opId, built.2)] }

/-- The flattened `(path, method, operation)` entries in document
enumeration order. -/
def opsList (doc : OpenAPIDoc) : List (Str × Str × Operation) :=
  doc.paths.flatMap (fun pm => pm.2.map (fun mo => (pm.1, mo.1, mo.2)))

/-- The operation id an entry would get. -/
def effId (e : Str × Str × Operation) : Str := effOperationId e.2.1 e.1 e.2.2

/-- An entry survives the method filter and the path-parameter check. -/
def eligibleOp (e : Str × Str × Operation) : Bool :=
  validMethods.contains (strLower e.2.1) && pathParamsOk e.1 e.2.2

/-- `createTools` run over an explicit entry list. -/
def createToolsFromList (fuel : Nat) (doc : OpenAPIDoc)
    (entries : List (Str × Str × Operation)) : Except Str CTState :=
  entries.foldlM (stepOp fuel doc) ⟨[], [], [], []⟩

/-- `createTools` (part_000): the Tools catalog, ToolInvocationMap and
ContentTypeMap. -/
def createTools (fuel : Nat) (doc : OpenAPIDoc) :
    Except Str (List Tool × List (Str × Str) × List (Str × Str)) := do
  let st ← createToolsFromList fuel doc (opsList doc)
  .ok (st.items, st.toolMap, st.contentTypes)

/-! ## A small concrete catalog used by witnesses -/

/-- A one-operation tool (`GET /pets/{id}` with required `path-id`). -/
def demoTool : Tool :=
  { id := "getPet".data, name := "Get Pet".data, description := "Gets a pet".data,
    parameters := some
      { properties := [("path-id".data, JVal.obj [("type".data, JVal.str ("string".data))])],
        required := ["path-id".data] },
    returns := none }

/-- A gateway environment with one model and one tool. -/
def demoEnv : GatewayEnv :=
  { host := "api.example.com".data, title := "Pet API".data, version := none,
    securitySchemes := none,
    tools := [demoTool],
    invocationMap := [("getPet".data, "GET /pets/{id}".data)],
    contentTypes := [("getPet".data, "application/json".data)],
    prompts := [],
    models := [{ id := "api:pet_api:https://api.example.com".data,
                 name := "Pet API (https://api.example.com)".data,
                 description := "demo".data,
                 capabilities := ["json".data, "tools".data],
                 tools_endpoint := "/tools/pet_api".data }] }

/-- A document whose components `A` and `B` both define `$defs/Pet` (used
to exercise ambiguity handling). -/
def ambiguousDefsDoc : OpenAPIDoc :=
  ⟨"T".data, "D".data, none, [],
    [("A".data, JVal.obj [("$defs".data,
        JVal.obj [("Pet".data, JVal.obj [("type".data, JVal.str ("string".data))])])]),
     ("B".data, JVal.obj [("$defs".data,
        JVal.obj [("Pet".data, JVal.obj [("type".data, JVal.str ("number".data))])])])],
    [], none, none, []⟩

/-! ### Behaviour of `replaceFirst` (the semantics of JS `String.replace`
with a string pattern) -/

lemma replaceFirst_pos (t pat r : Str) (h : pat.isPrefixOf t = true) :
    replaceFirst t pat r = r ++ t.drop pat.length := by
  cases t with
  | nil =>
    have hp : pat = [] := by
      have := List.isPrefixOf_iff_prefix.mp h
      simpa using this.length_le
    subst hp
    simp [replaceFirst]
  | cons c rest => simp [replaceFirst, h]

lemma replaceFirst_neg_cons (c : Char) (rest pat r : Str)
    (h : pat.isPrefixOf (c :: rest) = false) :
    replaceFirst (c :: rest) pat r = c :: replaceFirst rest pat r := by
  simp [replaceFirst, h]

lemma strContains_cons (c : Char) (rest pat : Str) :
    strContains (c :: rest) pat =
      (pat.isPrefixOf (c :: rest) || strContains rest pat) := by
  simp [strContains]

/-- A pattern that occurs nowhere is not replaced: `replaceFirst` is the
identity. -/
lemma replaceFirst_no_match (t pat r : Str) (h : strContains t pat = false) :
    replaceFirst t pat r = t := by
  induction t with
  | nil =>
    have hp : pat.isPrefixOf ([] : Str) = false := by
      simpa [strContains] using h
    simp [replaceFirst, hp]
  | cons c rest ih =>
    rw [strContains_cons] at h
    obtain ⟨h1, h2⟩ := Bool.or_eq_false_iff.mp h
    rw [replaceFirst_neg_cons _ _ _ _ h1, ih h2]

/-- `replaceFirst` replaces exactly the first occurrence of the pattern:
if the pattern occurs at offset `a.length` and at no earlier offset, the
occurrence is replaced and the rest of the string is untouched. -/
lemma replaceFirst_first_occurrence (a pat b r : Str)
    (hfirst : ∀ i < a.length, pat.isPrefixOf ((a ++ pat ++ b).drop i) = false) :
    replaceFirst (a ++ pat ++ b) pat r = a ++ r ++ b := by
  induction a with
  | nil =>
    have h : pat.isPrefixOf (pat ++ b) = true :=
      List.isPrefixOf_iff_prefix.mpr (List.prefix_append pat b)
    simp only [List.nil_append]
    rw [replaceFirst_pos _ _ _ h, List.drop_left]
  | cons c a' ih =>
    have h0 : pat.isPrefixOf (((c :: a') ++ pat ++ b).drop 0) = false :=
      hfirst 0 (by simp)
    simp only [List.drop_zero] at h0
    have hrest : ∀ i < a'.length, pat.isPrefixOf ((a' ++ pat ++ b).drop i) = false := by
      intro i hi
      have := hfirst (i + 1) (by simpa using Nat.succ_lt_succ hi)
      simpa using this
    simp only [List.cons_append]
    rw [replaceFirst_neg_cons _ _ _ _ (by simpa using h0)]
    simpa using ih hrest

lemma substPathParams_cons (path : Str) (kv : Str × Str) (rest : List (Str × Str)) :
    substPathParams path (kv :: rest) =
      substPathParams
        (replaceFirst (replaceFirst path (bracePat kv.1) (encodeURIComponent kv.2))
          (colonPat kv.1) (encodeURIComponent kv.2)) rest := by
  simp [substPathParams]

/-- C3 (amended): for each bound parameter, path substitution replaces the
first occurrence of `{name}` and the first occurrence of `:name` with the
percent-encoded value (JS `String.replace` with a string pattern replaces
only the first occurrence, so later occurrences survive), and parameters
whose placeholder patterns do not occur in the template leave it unchanged
— no error is raised at this layer. -/
theorem c3_path_substitution_first_occurrence :
    (∀ (path : Str) (ps : List (Str × Str)),
        (∀ kv ∈ ps, strContains path (bracePat kv.1) = false ∧
            strContains path (colonPat kv.1) = false) →
        substPathParams path ps = path) ∧
    (∀ (a k b v : Str),
        (∀ i < a.length,
            (bracePat k).isPrefixOf ((a ++ bracePat k ++ b).drop i) = false) →
        strContains (a ++ encodeURIComponent v ++ b) (colonPat k) = false →
        substPathParams (a ++ bracePat k ++ b) [(k, v)] =
          a ++ encodeURIComponent v ++ b) ∧
    (∀ (a k b v : Str),
        strContains (a ++ colonPat k ++ b) (bracePat k) = false →
        (∀ i < a.length,
            (colonPat k).isPrefixOf ((a ++ colonPat k ++ b).drop i) = false) →
        substPathParams (a ++ colonPat k ++ b) [(k, v)] =
          a ++ encodeURIComponent v ++ b) := by
  refine ⟨?_, ?_, ?_⟩
  · intro path ps
    induction ps generalizing path with
    | nil => intro _; simp [substPathParams]
    | cons kv rest ih =>
      intro h
      rw [substPathParams_cons,
        replaceFirst_no_match _ _ _ (h kv (by simp)).1,
        replaceFirst_no_match _ _ _ (h kv (by simp)).2]
      exact ih path (fun kv' hkv' => h kv' (by simp [hkv']))
  · intro a k b v hfirst hcolon
    rw [substPathParams_cons,
      replaceFirst_first_occurrence a (bracePat k) b _ hfirst,
      replaceFirst_no_match _ _ _ hcolon]
    simp [substPathParams]
  · intro a k b v hbrace hfirst
    rw [substPathParams_cons, replaceFirst_no_match _ _ _ hbrace,
      replaceFirst_first_occurrence a (colonPat k) b _ hfirst]
    simp [substPathParams]

/-- C3 counterexample: with template `/x/{id}/{id}` and bound parameter
`id = 7`, only the first `{id}` is replaced; the second occurrence is left
in the path, so substitution does not replace every occurrence. -/
theorem c3_counterexample_second_occurrence_untouched :
    substPathParams ("/x/{id}/{id}".data) [("id".data, "7".data)] = "/x/7/{id}".data ∧
      "/x/7/{id}".data ≠ "/x/7/7".data := by
  constructor
  · decide
  · decide

/-- C3 witness: concrete instances of all three conjuncts of the amended
theorem. -/
theorem c3_witness :
    substPathParams ("/pets/".data ++ bracePat ("id".data) ++ ("/toys".data))
        [("id".data, "a b".data)] =
      "/pets/".data ++ encodeURIComponent ("a b".data) ++ ("/toys".data) ∧
    substPathParams ("/all".data) [("id".data, "7".data)] = "/all".data ∧
    substPathParams ("/v1/".data ++ colonPat ("id".data) ++ ("/x".data))
        [("id".data, "9".data)] =
      "/v1/".data ++ encodeURIComponent ("9".data) ++ ("/x".data) := by
  refine ⟨?_, ?_, ?_⟩
  · exact c3_path_substitution_first_occurrence.2.1 ("/pets/".data) ("id".data)
      ("/toys".data) ("a b".data) (by decide) (by decide)
  · exact c3_path_substitution_first_occurrence.1 ("/all".data)
      [("id".data, "7".data)] (by decide)
  · exact c3_path_substitution_first_occurrence.2.2 ("/v1/".data) ("id".data)
      ("/x".data) ("9".data) (by decide) (by decide)

/-! ### C10: parameter splitting never mutates the caller's bag -/

lemma storeRead_lt {σ : Store} {r : Nat} {bag : Bag} (h : storeRead σ r = some bag) :
    r < σ.length :=
  (List.getElem?_eq_some.mp (by simpa [storeRead, List.get?_eq_getElem?] using h)).1

/-- C10: `processParameters` (and hence `executeApiCall`) leaves the
caller's parameter bag unchanged: the `body` key is deleted only from a
freshly allocated copy (read back at `σ.length`), and no key or value of
the original bag is added, removed, or modified. -/
theorem c10_processParameters_caller_bag_unchanged (σ : Store) (r : Nat) (bag : Bag)
    (h : storeRead σ r = some bag) :
    storeRead (processParametersH σ r).1 r = some bag ∧
    storeRead (processParametersH σ r).1 σ.length =
      some (if truthyOpt (bagGet bag ("body".data)) then bagDelete bag ("body".data)
        else bag) ∧
    ∀ (host method path contentType : Str)
      (securitySchemes : Option (List (Str × SecurityScheme)))
      (parseJsonBody : Str → Option JVal) (doFetch : FetchRequest → FetchResponse),
      storeRead (executeApiCallH σ r host method path contentType securitySchemes
          parseJsonBody doFetch).1 r = some bag := by
  have hr : r < σ.length := storeRead_lt h
  have hne : σ.length ≠ r := by omega
  have hg : σ[r]? = some bag := by simpa [storeRead, List.get?_eq_getElem?] using h
  have hproc : storeRead (processParametersH σ r).1 r = some bag := by
    simp only [processParametersH, storeRead, storeAlloc, storeWrite, Option.getD_some,
      List.get?_eq_getElem?, List.getElem?_concat_length, hg]
    split
    · rw [List.getElem?_set_ne hne]
      rw [List.getElem?_append_left hr, hg]
    · rw [List.getElem?_append_left hr, hg]
  refine ⟨hproc, ?_, ?_⟩
  · simp only [processParametersH, storeRead, storeAlloc, storeWrite, Option.getD_some,
      List.get?_eq_getElem?, List.getElem?_concat_length, hg]
    split
    · exact List.getElem?_set_self (by simp)
    · exact List.getElem?_concat_length σ bag
  · intro host method path contentType securitySchemes parseJsonBody doFetch
    simpa only [executeApiCallH] using hproc

/-! ### C1: a failed tool call is a JSON-RPC success envelope with
`isError: true` -/

/-- C1: for a `tools/call` request whose tool is present in the invocation
map but whose `executeApiCall` rejects with message `msg`, the dispatcher
replies with a JSON-RPC success envelope (no top-level `error`), whose
`result.isError` is `true` and whose `result.content` is the single text
item `Error calling tool: <msg>`. -/
theorem c1_tool_failure_success_envelope
    (env : GatewayEnv) (exec : ExecRequest → ExecOutcome) (request : JsonRpcRequest)
    (p : RpcParams) (n entry msg : Str)
    (hm : request.method = "tools/call".data)
    (hp : request.params = some p) (hn : p.name = some n) (hne : n ≠ [])
    (hmap : mapGet env.invocationMap n = some entry) (hentry : entry ≠ [])
    (hexec : exec ⟨env.host, (splitMethodPath entry).1, (splitMethodPath entry).2,
        p.arguments.getD [],
        jsOrStr (mapGet env.contentTypes n) ("application/json".data),
        env.securitySchemes⟩ = .failure msg) :
    handleSsePost env exec (some request) =
      .json ⟨request.id,
        some (.toolCall [⟨"text".data, "Error calling tool: ".data ++ msg⟩] true),
        none⟩ 200 := by
  have hguard : ¬(¬truthyStr (some n) = true ∨ ¬truthyStr (some entry) = true) := by
    simp [truthyStr, hne, hentry]
  simp only [handleSsePost, hm, hp, hn, Option.some_bind, Option.getD_some, if_true, hmap]
  rw [if_neg (by decide : ¬("tools/call".data = "initialize".data)),
    if_neg (by decide : ¬("tools/call".data = "tools/list".data)),
    if_neg hguard]
  simp only [toolCallRun, hmap, Option.getD_some, hexec]

/-- C1 witness: a concrete failing call through the demo catalog. -/
theorem c1_witness :
    handleSsePost demoEnv (fun _ => .failure ("boom".data))
        (some ⟨some (.num 1), "tools/call".data,
          some ⟨some ("getPet".data), some [("path-id".data, JVal.str ("7".data))]⟩⟩) =
      .json ⟨some (.num 1),
        some (.toolCall [⟨"text".data, "Error calling tool: boom".data⟩] true),
        none⟩ 200 := by
  have h := c1_tool_failure_success_envelope demoEnv (fun _ => .failure ("boom".data))
    ⟨some (.num 1), "tools/call".data,
      some ⟨some ("getPet".data), some [("path-id".data, JVal.str ("7".data))]⟩⟩
    ⟨some ("getPet".data), some [("path-id".data, JVal.str ("7".data))]⟩
    ("getPet".data) ("GET /pets/{id}".data) ("boom".data)
    rfl rfl rfl (by decide) rfl (by decide) rfl
  simpa using h

/-! ### C2: protocol-level error codes -/

/-- C2: (i) `tools/call` naming a tool absent from the invocation map
replies with JSON-RPC error `-32602` / `Invalid params`; (ii) a method
outside the dispatch table replies with `-32601` / `Method not found`;
(iii) an unparsable POST body replies with `-32700` / `Parse error` and
`id: null`. -/
theorem c2_protocol_error_codes :
    (∀ (env : GatewayEnv) (exec : ExecRequest → ExecOutcome)
        (request : JsonRpcRequest) (p : RpcParams) (n : Str),
        request.method = "tools/call".data →
        request.params = some p → p.name = some n → n ≠ [] →
        mapGet env.invocationMap n = none →
        handleSsePost env exec (some request) =
          .json ⟨request.id, none,
            some ⟨-32602, "Invalid params".data, some ("Tool not found".data)⟩⟩ 200) ∧
    (∀ (env : GatewayEnv) (exec : ExecRequest → ExecOutcome)
        (request : JsonRpcRequest),
        request.method ∉ sseMethods →
        handleSsePost env exec (some request) =
          .json ⟨request.id, none, some ⟨-32601, "Method not found".data, none⟩⟩ 404) ∧
    (∀ (env : GatewayEnv) (exec : ExecRequest → ExecOutcome),
        handleSsePost env exec none =
          .json ⟨some .jsNull, none, some ⟨-32700, "Parse error".data, none⟩⟩ 400) := by
  refine ⟨?_, ?_, ?_⟩
  · intro env exec request p n hm hp hn hne hmap
    have hguard : (¬truthyStr (some n) = true ∨ ¬truthyStr (none : Option Str) = true) :=
      Or.inr (by simp [truthyStr])
    simp only [handleSsePost, hm, hp, hn, Option.some_bind, Option.getD_some, if_true, hmap]
    rw [if_neg (by decide : ¬("tools/call".data = "initialize".data)),
      if_neg (by decide : ¬("tools/call".data = "tools/list".data)),
      if_pos hguard]
  · intro env exec request h
    have h1 : request.method ≠ "initialize".data :=
      fun he => h (he ▸ (by simp [sseMethods]))
    have h2 : request.method ≠ "tools/list".data :=
      fun he => h (he ▸ (by simp [sseMethods]))
    have h3 : request.method ≠ "tools/call".data :=
      fun he => h (he ▸ (by simp [sseMethods]))
    have h4 : request.method ≠ "resources/list".data :=
      fun he => h (he ▸ (by simp [sseMethods]))
    have h5 : request.method ≠ "resources/templates/list".data :=
      fun he => h (he ▸ (by simp [sseMethods]))
    have h6 : request.method ≠ "prompts/list".data :=
      fun he => h (he ▸ (by simp [sseMethods]))
    have h7 : request.method ≠ "notifications/initialized".data :=
      fun he => h (he ▸ (by simp [sseMethods]))
    have h8 : request.method ≠ "ping".data :=
      fun he => h (he ▸ (by simp [sseMethods]))
    simp only [handleSsePost]
    rw [if_neg h1, if_neg h2, if_neg h3, if_neg h4, if_neg h5, if_neg h6,
      if_neg h7, if_neg h8]
  · intro env exec
    rfl

/-- C2 witness: concrete instances of all three conjuncts. -/
theorem c2_witness :
    handleSsePost demoEnv (fun _ => .failure [])
        (some ⟨some (.num 1), "tools/call".data, some ⟨some ("nope".data), none⟩⟩) =
      .json ⟨some (.num 1), none,
        some ⟨-32602, "Invalid params".data, some ("Tool not found".data)⟩⟩ 200 ∧
    handleSsePost demoEnv (fun _ => .failure [])
        (some ⟨some (.num 2), "frobnicate".data, none⟩) =
      .json ⟨some (.num 2), none, some ⟨-32601, "Method not found".data, none⟩⟩ 404 ∧
    handleSsePost demoEnv (fun _ => .failure []) none =
      .json ⟨some .jsNull, none, some ⟨-32700, "Parse error".data, none⟩⟩ 400 := by
  refine ⟨?_, ?_, ?_⟩
  · exact c2_protocol_error_codes.1 demoEnv (fun _ => .failure [])
      ⟨some (.num 1), "tools/call".data, some ⟨some ("nope".data), none⟩⟩
      ⟨some ("nope".data), none⟩ ("nope".data) rfl rfl rfl (by decide) rfl
  · exact c2_protocol_error_codes.2.1 demoEnv (fun _ => .failure [])
      ⟨some (.num 2), "frobnicate".data, none⟩ (by decide)
  · exact c2_protocol_error_codes.2.2 demoEnv (fun _ => .failure [])

/-! ### C9: `/invoke` required-parameter validation -/

/-- C9: for an `/invoke` request naming an existing model and an existing
tool whose parameter schema carries a `required` list: when some required
key is absent from the bag, the reply is the 400 `missing` response naming
exactly the absent required keys and no upstream call is issued; when none
is absent, the check passes and CallExecutor is invoked. -/
theorem c9_invoke_required_parameters
    (env : GatewayEnv) (exec : ExecRequest → ExecOutcome) (req : MCPRequestM)
    (srv : Model) (t entry : Str) (td : Tool) (ps : ToolParams)
    (hmodel : env.models.find? (fun m => effectiveModel env req = some m.id) = some srv)
    (ht : req.tool = some t) (htne : t ≠ [])
    (hmap : mapGet env.invocationMap t = some entry) (hentry : entry ≠ [])
    (htd : env.tools.find? (fun tl => tl.id = t) = some td)
    (hps : td.parameters = some ps) :
    (ps.required.filter (fun p => ¬ bagHas req.parameters p) ≠ [] →
      handleInvoke env exec req =
        (.missingRequired (ps.required.filter (fun p => ¬ bagHas req.parameters p)),
          none) ∧
      invokeStatus (handleInvoke env exec req).1 = 400) ∧
    (ps.required.filter (fun p => ¬ bagHas req.parameters p) = [] →
      (handleInvoke env exec req).2 =
        some ⟨env.host, (splitMethodPath entry).1, (splitMethodPath entry).2,
          req.parameters,
          jsOrStr (mapGet env.contentTypes t) ("application/json".data),
          env.securitySchemes⟩) := by
  have hbody : handleInvoke env exec req =
      (let missingParams := ps.required.filter (fun p => ¬ bagHas req.parameters p)
       if missingParams.length > 0 then (.missingRequired missingParams, none)
       else
        let mp := splitMethodPath entry
        let execReq : ExecRequest :=
          ⟨env.host, mp.1, mp.2, req.parameters,
            jsOrStr (mapGet env.contentTypes t) ("application/json".data),
            env.securitySchemes⟩
        match exec execReq with
        | .success output => (.invokeData ((effectiveModel env req).getD []) output, some execReq)
        | .failure msg => (.apiCallFailed msg t ((effectiveModel env req).getD []), some execReq)) := by
    simp only [handleInvoke, hmodel, ht, Option.getD_some]
    rw [if_neg (by simp [truthyStr, htne]), if_neg (by simp [truthyStr, hmap, hentry])]
    simp only [htd, Option.some_bind, hps, hmap, Option.getD_some]
  constructor
  · intro hne
    have hlen : (ps.required.filter (fun p => ¬ bagHas req.parameters p)).length > 0 :=
      List.length_pos.mpr hne
    rw [hbody]
    simp only [if_pos hlen]
    refine ⟨?_, ?_⟩ <;> simp [invokeStatus]
  · intro hfil
    rw [hbody]
    simp only [hfil, List.length_nil, gt_iff_lt, Nat.lt_irrefl, if_false]
    cases hx : exec ⟨env.host, (splitMethodPath entry).1, (splitMethodPath entry).2,
        req.parameters,
        jsOrStr (mapGet env.contentTypes t) ("application/json".data),
        env.securitySchemes⟩ <;> simp [hx]

/-- C9 witness: with the demo catalog, an empty bag reports
`missing = [path-id]` with no upstream call; a bag carrying `path-id`
reaches CallExecutor. -/
theorem c9_witness :
    handleInvoke demoEnv (fun _ => .failure ("e".data)) ⟨none, some ("getPet".data), []⟩ =
      (.missingRequired ["path-id".data], none) ∧
    (handleInvoke demoEnv (fun _ => .failure ("e".data))
        ⟨none, some ("getPet".data), [("path-id".data, JVal.str ("7".data))]⟩).2 =
      some ⟨demoEnv.host, "GET".data, "/pets/{id}".data,
        [("path-id".data, JVal.str ("7".data))], "application/json".data, none⟩ := by
  constructor
  · have h := (c9_invoke_required_parameters demoEnv (fun _ => .failure ("e".data))
      ⟨none, some ("getPet".data), []⟩
      { id := "api:pet_api:https://api.example.com".data,
        name := "Pet API (https://api.example.com)".data,
        description := "demo".data,
        capabilities := ["json".data, "tools".data],
        tools_endpoint := "/tools/pet_api".data }
      ("getPet".data) ("GET /pets/{id}".data) demoTool
      { properties := [("path-id".data, JVal.obj [("type".data, JVal.str ("string".data))])],
        required := ["path-id".data] }
      rfl rfl (by decide) rfl (by decide) rfl rfl).1 (by decide)
    simpa using h.1
  · have h := (c9_invoke_required_parameters demoEnv (fun _ => .failure ("e".data))
      ⟨none, some ("getPet".data), [("path-id".data, JVal.str ("7".data))]⟩
      { id := "api:pet_api:https://api.example.com".data,
        name := "Pet API (https://api.example.com)".data,
        description := "demo".data,
        capabilities := ["json".data, "tools".data],
        tools_endpoint := "/tools/pet_api".data }
      ("getPet".data) ("GET /pets/{id}".data) demoTool
      { properties := [("path-id".data, JVal.obj [("type".data, JVal.str ("string".data))])],
        required := ["path-id".data] }
      rfl rfl (by decide) rfl (by decide) rfl rfl).2 (by decide)
    simpa using h

/-! ### C5/C6: CatalogBuilder exclusion policies -/

lemma except_bind_err {α β : Type} (m : Str) (f : α → Except Str β) :
    ((Except.error m : Except Str α) >>= f) = .error m := rfl

lemma except_bind_okk {α β : Type} (a : α) (f : α → Except Str β) :
    ((Except.ok a : Except Str α) >>= f) = f a := rfl

lemma stepOp_not_method (fuel : Nat) (doc : OpenAPIDoc) (st : CTState)
    (e : Str × Str × Operation) (h : strLower e.2.1 ∉ validMethods) :
    stepOp fuel doc st e = .ok st := by
  simp [stepOp, h]

lemma stepOp_bad_path (fuel : Nat) (doc : OpenAPIDoc) (st : CTState)
    (e : Str × Str × Operation) (h : pathParamsOk e.1 e.2.2 = false) :
    stepOp fuel doc st e = .ok st := by
  by_cases hm : strLower e.2.1 ∈ validMethods
  · simp [stepOp, hm, h]
  · simp [stepOp, hm]

lemma stepOp_dup (fuel : Nat) (doc : OpenAPIDoc) (st : CTState)
    (e : Str × Str × Operation) (hm : strLower e.2.1 ∈ validMethods)
    (hp : pathParamsOk e.1 e.2.2 = true) (hd : effId e ∈ st.seen) :
    stepOp fuel doc st e = .ok st := by
  have hd' : effOperationId e.2.1 e.1 e.2.2 ∈ st.seen := hd
  simp [stepOp, hm, hp, hd']

lemma stepOp_accept (fuel : Nat) (doc : OpenAPIDoc) (st : CTState)
    (e : Str × Str × Operation) (hm : strLower e.2.1 ∈ validMethods)
    (hp : pathParamsOk e.1 e.2.2 = true) (hd : effId e ∉ st.seen) :
    stepOp fuel doc st e =
      (buildAccepted fuel doc e.1 e.2.1 e.2.2 (effId e) >>= fun built =>
        Except.ok ⟨st.seen ++ [effId e], st.items ++ [built.1],
          st.toolMap ++ [(effId e, strUpper e.2.1 ++ ' ' :: e.1)],
          st.contentTypes ++ [(effId e, built.2)]⟩) := by
  have hd' : effOperationId e.2.1 e.1 e.2.2 ∉ st.seen := hd
  simp [stepOp, hm, hp, hd', effId]

lemma stepOp_seen_grow (fuel : Nat) (doc : OpenAPIDoc) (st : CTState)
    (e : Str × Str × Operation) (st' : CTState) (h : stepOp fuel doc st e = .ok st')
    (x : Str) (hx : x ∈ st.seen) : x ∈ st'.seen := by
  by_cases hm : strLower e.2.1 ∈ validMethods
  · by_cases hp : pathParamsOk e.1 e.2.2 = true
    · by_cases hd : effId e ∈ st.seen
      · rw [stepOp_dup fuel doc st e hm hp hd] at h
        cases h; exact hx
      · rw [stepOp_accept fuel doc st e hm hp hd] at h
        cases hb : buildAccepted fuel doc e.1 e.2.1 e.2.2 (effId e) with
        | error m => rw [hb, except_bind_err] at h; simp at h
        | ok built =>
          rw [hb, except_bind_okk] at h
          injection h with h2
          rw [← h2]
          simp [hx]
    · rw [stepOp_bad_path fuel doc st e (by simpa using hp)] at h
      cases h; exact hx
  · rw [stepOp_not_method fuel doc st e hm] at h
    cases h; exact hx

lemma foldl_seen_grow (fuel : Nat) (doc : OpenAPIDoc) :
    ∀ (entries : List (Str × Str × Operation)) (init st : CTState),
      entries.foldlM (stepOp fuel doc) init = .ok st →
      ∀ x, x ∈ init.seen → x ∈ st.seen := by
  intro entries
  induction entries with
  | nil =>
    intro init st h x hx
    simp only [List.foldlM_nil] at h
    cases h; exact hx
  | cons e rest ih =>
    intro init st h x hx
    rw [List.foldlM_cons] at h
    cases hs : stepOp fuel doc init e with
    | error msg => rw [hs, except_bind_err] at h; simp at h
    | ok st1 =>
      rw [hs, except_bind_okk] at h
      exact ih st1 st h x (stepOp_seen_grow fuel doc init e st1 hs x hx)

lemma stepOp_eligible_seen (fuel : Nat) (doc : OpenAPIDoc) (st : CTState)
    (e : Str × Str × Operation) (st' : CTState) (helig : eligibleOp e = true)
    (h : stepOp fuel doc st e = .ok st') : effId e ∈ st'.seen := by
  obtain ⟨hm, hp⟩ : strLower e.2.1 ∈ validMethods ∧ pathParamsOk e.1 e.2.2 = true := by
    simpa [eligibleOp] using helig
  by_cases hd : effId e ∈ st.seen
  · rw [stepOp_dup fuel doc st e hm hp hd] at h
    cases h; exact hd
  · rw [stepOp_accept fuel doc st e hm hp hd] at h
    cases hb : buildAccepted fuel doc e.1 e.2.1 e.2.2 (effId e) with
    | error m => rw [hb, except_bind_err] at h; simp at h
    | ok built =>
      rw [hb, except_bind_okk] at h
      injection h with h2
      rw [← h2]
      simp

lemma processed_in_seen (fuel : Nat) (doc : OpenAPIDoc) :
    ∀ (entries : List (Str × Str × Operation)) (init st : CTState),
      entries.foldlM (stepOp fuel doc) init = .ok st →
      ∀ e ∈ entries, eligibleOp e = true → effId e ∈ st.seen := by
  intro entries
  induction entries with
  | nil => intro init st _ e he; exact absurd he (List.not_mem_nil e)
  | cons a rest ih =>
    intro init st h e he helig
    rw [List.foldlM_cons] at h
    cases hs : stepOp fuel doc init a with
    | error msg => rw [hs, except_bind_err] at h; simp at h
    | ok st1 =>
      rw [hs, except_bind_okk] at h
      rcases List.mem_cons.mp he with rfl | hmem
      · exact foldl_seen_grow fuel doc rest st1 st h (effId e)
          (stepOp_eligible_seen fuel doc init e st1 helig hs)
      · exact ih st1 st h e hmem helig

lemma buildAccepted_id (fuel : Nat) (doc : OpenAPIDoc) (path method : Str)
    (op : Operation) (opId : Str) (built : Tool × Str)
    (h : buildAccepted fuel doc path method op opId = .ok built) :
    built.1.id = opId := by
  unfold buildAccepted at h
  cases h1 : computeCtBody fuel doc op with
  | error m => rw [h1, except_bind_err] at h; simp at h
  | ok ctBody =>
    rw [h1, except_bind_okk] at h
    cases h2 : buildParams fuel doc op ctBody.2 with
    | error m => rw [h2, except_bind_err] at h; simp at h
    | ok withParams =>
      rw [h2, except_bind_okk] at h
      cases h3 : computeReturns fuel doc op with
      | error m => rw [h3, except_bind_err] at h; simp at h
      | ok returns =>
        rw [h3, except_bind_okk] at h
        injection h with h4
        rw [← h4]

lemma stepOp_invariant (fuel : Nat) (doc : OpenAPIDoc) (st : CTState)
    (e : Str × Str × Operation) (st' : CTState) (h : stepOp fuel doc st e = .ok st')
    (hids : st.items.map (·.id) = st.seen) (hnd : st.seen.Nodup) :
    st'.items.map (·.id) = st'.seen ∧ st'.seen.Nodup := by
  by_cases hm : strLower e.2.1 ∈ validMethods
  · by_cases hp : pathParamsOk e.1 e.2.2 = true
    · by_cases hd : effId e ∈ st.seen
      · rw [stepOp_dup fuel doc st e hm hp hd] at h
        cases h; exact ⟨hids, hnd⟩
      · rw [stepOp_accept fuel doc st e hm hp hd] at h
        cases hb : buildAccepted fuel doc e.1 e.2.1 e.2.2 (effId e) with
        | error m => rw [hb, except_bind_err] at h; simp at h
        | ok built =>
          rw [hb, except_bind_okk] at h
          injection h with h2
          rw [← h2]
          constructor
          · simp [hids, buildAccepted_id fuel doc e.1 e.2.1 e.2.2 (effId e) built hb]
          · simp [List.nodup_append, hnd, hd]
    · rw [stepOp_bad_path fuel doc st e (by simpa using hp)] at h
      cases h; exact ⟨hids, hnd⟩
  · rw [stepOp_not_method fuel doc st e hm] at h
    cases h; exact ⟨hids, hnd⟩

lemma foldl_invariant (fuel : Nat) (doc : OpenAPIDoc) :
    ∀ (entries : List (Str × Str × Operation)) (init st : CTState),
      entries.foldlM (stepOp fuel doc) init = .ok st →
      init.items.map (·.id) = init.seen → init.seen.Nodup →
      st.items.map (·.id) = st.seen ∧ st.seen.Nodup := by
  intro entries
  induction entries with
  | nil =>
    intro init st h hids hnd
    simp only [List.foldlM_nil] at h
    cases h; exact ⟨hids, hnd⟩
  | cons a rest ih =>
    intro init st h hids hnd
    rw [List.foldlM_cons] at h
    cases hs : stepOp fuel doc init a with
    | error msg => rw [hs, except_bind_err] at h; simp at h
    | ok st1 =>
      rw [hs, except_bind_okk] at h
      obtain ⟨h1, h2⟩ := stepOp_invariant fuel doc init a st1 hs hids hnd
      exact ih st1 st h h1 h2

lemma foldlM_skip_entry (fuel : Nat) (doc : OpenAPIDoc) (e : Str × Str × Operation)
    (hskip : ∀ st, stepOp fuel doc st e = .ok st) :
    ∀ (pre post : List (Str × Str × Operation)) (init : CTState),
      (pre ++ e :: post).foldlM (stepOp fuel doc) init =
        (pre ++ post).foldlM (stepOp fuel doc) init := by
  intro pre
  induction pre with
  | nil =>
    intro post init
    simp only [List.nil_append, List.foldlM_cons, hskip]
    rfl
  | cons a pre ih =>
    intro post init
    simp only [List.cons_append, List.foldlM_cons]
    cases hs : stepOp fuel doc init a with
    | error msg => rfl
    | ok st1 =>
      simp only [except_bind_okk]
      exact ih post st1

/-- C6: an operation declaring an `in: path` parameter whose name appears
in the path as neither `{name}` nor `:name` is excluded whole — the
processing step leaves the state (tools, invocation map, content types)
unchanged and raises no error, and deleting the entry from the document's
operation list does not change `createTools`' result at all. -/
theorem c6_invalid_path_param_silently_excluded (fuel : Nat) (doc : OpenAPIDoc) :
    (∀ (st : CTState) (path method : Str) (op : Operation),
      pathParamsOk path op = false →
      stepOp fuel doc st (path, method, op) = .ok st) ∧
    (∀ (pre post : List (Str × Str × Operation)) (e : Str × Str × Operation),
      pathParamsOk e.1 e.2.2 = false →
      createToolsFromList fuel doc (pre ++ e :: post) =
        createToolsFromList fuel doc (pre ++ post)) := by
  constructor
  · exact fun st path method op h => stepOp_bad_path fuel doc st (path, method, op) h
  · intro pre post e h
    unfold createToolsFromList
    exact foldlM_skip_entry fuel doc e (fun st => stepOp_bad_path fuel doc st e h)
      pre post _

/-- C6 witness: the spec's example — a path parameter `id` declared on
path `/items` (no placeholder) — is excluded silently. -/
theorem c6_witness :
    stepOp 1 ⟨"T".data, "D".data, none, [], [], [], none, none, []⟩
        ⟨[], [], [], []⟩
        ("/items".data, "get".data,
          ⟨none, some ("listItems".data), none,
            some [⟨"id".data, "path".data, none, true, JVal.null⟩], none, none⟩) =
      .ok ⟨[], [], [], []⟩ :=
  (c6_invalid_path_param_silently_excluded 1
      ⟨"T".data, "D".data, none, [], [], [], none, none, []⟩).1
    ⟨[], [], [], []⟩ ("/items".data) ("get".data)
    ⟨none, some ("listItems".data), none,
      some [⟨"id".data, "path".data, none, true, JVal.null⟩], none, none⟩
    (by decide)

/-- C5: tool ids are unique in the produced catalog, and an eligible
operation whose (explicit or derived) operationId already occurred on an
earlier eligible operation contributes nothing: deleting it from the
operation list leaves `createTools`' result — tools, ToolInvocationMap and
ContentTypeMap — unchanged, and the collision raises no error.  Hence the
first-encountered operation wins. -/
theorem c5_duplicate_operation_id_first_wins (fuel : Nat) (doc : OpenAPIDoc) :
    (∀ (tools : List Tool) (tmap cts : List (Str × Str)),
      createTools fuel doc = .ok (tools, tmap, cts) → (tools.map (·.id)).Nodup) ∧
    (∀ (pre post : List (Str × Str × Operation)) (e : Str × Str × Operation),
      eligibleOp e = true →
      (∃ e' ∈ pre, eligibleOp e' = true ∧ effId e' = effId e) →
      createToolsFromList fuel doc (pre ++ e :: post) =
        createToolsFromList fuel doc (pre ++ post)) := by
  constructor
  · intro tools tmap cts h
    unfold createTools at h
    cases hst : createToolsFromList fuel doc (opsList doc) with
    | error msg => rw [hst, except_bind_err] at h; simp at h
    | ok st =>
      rw [hst, except_bind_okk] at h
      have hit : tools = st.items := by
        injection h with h2
        exact (congrArg Prod.fst h2).symm
      obtain ⟨h1, h2⟩ := foldl_invariant fuel doc (opsList doc) ⟨[], [], [], []⟩ st hst
        rfl List.nodup_nil
      rw [hit, h1]; exact h2
  · intro pre post e helig hex
    obtain ⟨e', he', helig', hid⟩ := hex
    unfold createToolsFromList
    rw [List.foldlM_append, List.foldlM_append]
    cases h : pre.foldlM (stepOp fuel doc) ⟨[], [], [], []⟩ with
    | error msg => rfl
    | ok st =>
      have hseen : effId e ∈ st.seen := by
        have := processed_in_seen fuel doc pre ⟨[], [], [], []⟩ st h e' he' helig'
        rwa [hid] at this
      obtain ⟨hm, hp⟩ : strLower e.2.1 ∈ validMethods ∧ pathParamsOk e.1 e.2.2 = true := by
        simpa [eligibleOp] using helig
      simp only [except_bind_okk, List.foldlM_cons,
        stepOp_dup fuel doc st e hm hp hseen]

/-- C5 witness: two `get` operations with the same explicit operationId on
different paths — the catalog keeps only the first. -/
theorem c5_witness :
    createToolsFromList 1 ⟨"T".data, "D".data, none, [], [], [], none, none, []⟩
        (("/a".data, "get".data,
            (⟨none, some ("dup".data), none, none, none, some []⟩ : Operation)) ::
          ("/b".data, "get".data,
            (⟨none, some ("dup".data), none, none, none, some []⟩ : Operation)) :: []) =
      createToolsFromList 1 ⟨"T".data, "D".data, none, [], [], [], none, none, []⟩
        [("/a".data, "get".data,
            (⟨none, some ("dup".data), none, none, none, some []⟩ : Operation))] :=
  (c5_duplicate_operation_id_first_wins 1
      ⟨"T".data, "D".data, none, [], [], [], none, none, []⟩).2
    [("/a".data, "get".data, ⟨none, some ("dup".data), none, none, none, some []⟩)]
    [] ("/b".data, "get".data, ⟨none, some ("dup".data), none, none, none, some []⟩)
    (by decide)
    ⟨("/a".data, "get".data, ⟨none, some ("dup".data), none, none, none, some []⟩),
      by simp, by decide, by decide⟩


/-! ### C4: direct component references -/

lemma schemasPre_starts (name : Str) :
    strStarts ("#/components/schemas/".data ++ name)
      ("#/components/schemas/".data) = true :=
  List.isPrefixOf_iff_prefix.mpr (List.prefix_append _ _)

lemma schemasPre_drop (name : Str) :
    ("#/components/schemas/".data ++ name).drop
      ("#/components/schemas/".data).length = name :=
  List.drop_left _ _

set_option maxHeartbeats 2000000 in
set_option synthInstance.maxHeartbeats 200000 in
/-- C4 (amended): for a direct reference `#/components/schemas/<Name>`
with no `/$defs/` segment, `findSchema` returns exactly the (truthy)
schema registered under `<Name>`; when nothing is registered under that
name it returns `null` (`Except.ok none`) — it does not raise a
SchemaResolutionError. -/
theorem c4_direct_component_reference (fuel : Nat) (doc : OpenAPIDoc) (name : Str) :
    (∀ s, doc.schemas.lookup name = some s → truthy s = true →
      ¬ strContains ("#/components/schemas/".data ++ name) ("/$defs/".data) = true →
      findSchema (fuel + 1) doc
        (.obj [("$ref".data, .str ("#/components/schemas/".data ++ name))]) none =
        .ok (some s)) ∧
    (doc.schemas.lookup name = none →
      ¬ strContains ("#/components/schemas/".data ++ name) ("/$defs/".data) = true →
      findSchema (fuel + 1) doc
        (.obj [("$ref".data, .str ("#/components/schemas/".data ++ name))]) none =
        .ok none) := by
  constructor
  · intro s hs hts hcont
    have hstarts := schemasPre_starts name
    have hcont' : strContains ("#/components/schemas/".data ++ name)
        ("/$defs/".data) = false := by simpa using hcont
    simp at hstarts hcont'
    unfold findSchema
    simp [isObjType, jsInSafe, jsIn, jsIndex, truthyOpt, except_bind_okk,
      hstarts, hcont', hs, hts,
      show ∀ fields, truthy (JVal.obj fields) = true from fun _ => rfl]
  · intro hs hcont
    have hstarts := schemasPre_starts name
    have hcont' : strContains ("#/components/schemas/".data ++ name)
        ("/$defs/".data) = false := by simpa using hcont
    simp at hstarts hcont'
    unfold findSchema
    simp [isObjType, jsInSafe, jsIn, jsIndex, truthyOpt, except_bind_okk,
      hstarts, hcont', hs,
      show ∀ fields, truthy (JVal.obj fields) = true from fun _ => rfl]

/-- C4 counterexample: with no registered schemas, resolving the direct
reference `#/components/schemas/Missing` yields `Except.ok none` (the JS
function returns `null`), not a thrown SchemaResolutionError. -/
theorem c4_counterexample_absent_returns_null :
    findSchema 1 ⟨"T".data, "D".data, none, [], [], [], none, none, []⟩
      (.obj [("$ref".data, .str ("#/components/schemas/Missing".data))]) none =
      Except.ok none := by
  rfl

/-- C4 witness: a present component schema is returned as registered; an
absent one yields `null`. -/
theorem c4_witness :
    findSchema 1
        ⟨"T".data, "D".data, none, [],
          [("Pet".data, JVal.obj [("type".data, JVal.str ("string".data))])],
          [], none, none, []⟩
        (.obj [("$ref".data, .str ("#/components/schemas/Pet".data))]) none =
      .ok (some (JVal.obj [("type".data, JVal.str ("string".data))])) ∧
    findSchema 1
        ⟨"T".data, "D".data, none, [],
          [("Pet".data, JVal.obj [("type".data, JVal.str ("string".data))])],
          [], none, none, []⟩
        (.obj [("$ref".data, .str ("#/components/schemas/Dog".data))]) none =
      .ok none := by
  constructor
  · have h := (c4_direct_component_reference 0
      ⟨"T".data, "D".data, none, [],
        [("Pet".data, JVal.obj [("type".data, JVal.str ("string".data))])],
        [], none, none, []⟩ ("Pet".data)).1
      (JVal.obj [("type".data, JVal.str ("string".data))]) rfl rfl (by decide)
    simpa using h
  · have h := (c4_direct_component_reference 0
      ⟨"T".data, "D".data, none, [],
        [("Pet".data, JVal.obj [("type".data, JVal.str ("string".data))])],
        [], none, none, []⟩ ("Dog".data)).2 rfl (by decide)
    simpa using h

/-! ### C7: `$defs` resolution order -/

lemma strStarts_append (pre s : Str) : strStarts (pre ++ s) pre = true :=
  List.isPrefixOf_iff_prefix.mpr (List.prefix_append pre s)

lemma splitChar_ne_nil (sep : Char) (s : Str) : splitChar sep s ≠ [] := by
  cases s with
  | nil => simp [splitChar]
  | cons c rest =>
    simp only [splitChar]
    cases splitChar sep rest with
    | nil => simp
    | cons s ss =>
      by_cases h : c = sep <;> simp [h]

lemma splitChar_append_sep (sep : Char) :
    ∀ (name rest : Str), sep ∉ name →
      splitChar sep (name ++ sep :: rest) = name :: splitChar sep rest := by
  intro name
  induction name with
  | nil =>
    intro rest _
    simp only [List.nil_append, splitChar]
    cases hsp : splitChar sep rest with
    | nil => exact absurd hsp (splitChar_ne_nil sep rest)
    | cons s ss => simp
  | cons c name' ih =>
    intro rest hmem
    have hc : ¬ c = sep := fun h => hmem (h ▸ List.mem_cons_self c name')
    have hm : sep ∉ name' := fun h => hmem (List.mem_cons_of_mem c h)
    simp only [List.cons_append, splitChar, List.append_eq]
    rw [ih rest hm]
    simp [hc]

lemma splitOnSlash_ne_single_nil (p : Str) (hp : p ≠ []) :
    splitOnSlash p ≠ [[]] := by
  cases p with
  | nil => exact absurd rfl hp
  | cons c rest =>
    simp only [splitOnSlash, splitChar]
    cases hsp : splitChar '/' rest with
    | nil => exact absurd hsp (splitChar_ne_nil '/' rest)
    | cons s ss =>
      by_cases h : c = '/' <;> simp [h]

set_option maxHeartbeats 4000000 in
/-- C7: `$defs` resolution order.  (1) For a bare `#/$defs/<path>`
reference, a truthy hit in the local schema context wins outright
(regardless of root or component `$defs`).  (2) With no local context, a
truthy hit in the document-root `$defs` wins (regardless of component
`$defs`).  (3) With neither, the component-schema search decides: a single
match is returned without warning, and (4) multiple matches return the
first in enumeration order together with one warning naming every matching
schema and the explicit component-qualified reference to use instead.
(5) A component-qualified `#/components/schemas/<Name>/$defs/<path>`
reference resolves only inside that component's `$defs`: the navigation
result is returned as-is, and an unregistered component yields `null` with
no fallback search. -/
theorem c7_defs_resolution_order (doc : OpenAPIDoc) (p : Str) :
    (∀ ls d v, truthy ls = true → isObjType ls = true →
      jsGet ls ("$defs".data) = some d → truthy d = true →
      navDefs d (splitOnSlash p) = .ok (some v) → truthy v = true →
      resolveDefsReference doc ("#/$defs/".data ++ p) (some ls) = .ok (some v, [])) ∧
    (∀ rd v, doc.rootDefs = some rd → truthy rd = true →
      navDefs rd (splitOnSlash p) = .ok (some v) → truthy v = true →
      resolveDefsReference doc ("#/$defs/".data ++ p) none = .ok (some v, [])) ∧
    (doc.rootDefs = none →
      ∀ n1 v1, compDefsSearch doc.schemas (splitOnSlash p) = .ok [(n1, v1)] →
      resolveDefsReference doc ("#/$defs/".data ++ p) none = .ok (some v1, [])) ∧
    (doc.rootDefs = none →
      ∀ n1 v1 n2 v2 rest,
      compDefsSearch doc.schemas (splitOnSlash p) = .ok ((n1, v1) :: (n2, v2) :: rest) →
      resolveDefsReference doc ("#/$defs/".data ++ p) none =
        .ok (some v1, [⟨"#/$defs/".data ++ p, n1 :: n2 :: rest.map (·.1),
          "#/components/schemas/".data ++ n1 ++ "/$defs/".data ++
            List.intercalate ("/".data) (splitOnSlash p)⟩])) ∧
    (∀ (name : Str) (localSchema : Option JVal), name ≠ [] → '/' ∉ name → p ≠ [] →
      (∀ sch d out, doc.schemas.lookup name = some sch → truthy sch = true →
        isObjType sch = true → jsInSafe ("$defs".data) sch = true →
        jsIndex sch ("$defs".data) = some d →
        navDefs d (splitOnSlash p) = .ok out →
        resolveDefsReference doc
          ("#/components/schemas/".data ++ (name ++ "/$defs/".data ++ p)) localSchema =
          .ok (out, [])) ∧
      (doc.schemas.lookup name = none →
        resolveDefsReference doc
          ("#/components/schemas/".data ++ (name ++ "/$defs/".data ++ p)) localSchema =
          .ok (none, []))) := by
  have hbne : ("#/$defs/".data ++ p) ≠ [] := by simp
  have hbnotcomp : strStarts ("#/$defs/".data ++ p)
      ("#/components/schemas/".data) = false := rfl
  have hbstarts := strStarts_append ("#/$defs/".data) p
  have hbdrop : ("#/$defs/".data ++ p).drop ("#/$defs/".data).length = p :=
    List.drop_left _ _
  simp at hbstarts hbdrop hbnotcomp hbne
  refine ⟨?_, ?_, ?_, ?_, ?_⟩
  · intro ls d v hls hobj hget hd hnav hv
    unfold resolveDefsReference
    simp [hbnotcomp, hbstarts, truthyOpt, except_bind_okk,
      hls, hobj, hget, hd, hnav, hv]
  · intro rd v hrd htrd hnav hv
    unfold resolveDefsReference
    simp [hbnotcomp, hbstarts, truthyOpt, except_bind_okk, hrd, htrd, hnav, hv]
  · intro hroot n1 v1 hsearch
    unfold resolveDefsReference
    simp [hbnotcomp, hbstarts, truthyOpt, except_bind_okk, hroot, hsearch]
  · intro hroot n1 v1 n2 v2 rest hsearch
    unfold resolveDefsReference
    simp [hbnotcomp, hbstarts, truthyOpt, except_bind_okk, hroot, hsearch]
  · intro name localSchema hname hslash hp
    have hcne : ("#/components/schemas/".data ++ (name ++ "/$defs/".data ++ p)) ≠ [] :=
      by simp
    have hcstarts := strStarts_append ("#/components/schemas/".data)
      (name ++ "/$defs/".data ++ p)
    have hcdrop : ("#/components/schemas/".data ++
        (name ++ "/$defs/".data ++ p)).drop ("#/components/schemas/".data).length =
        name ++ "/$defs/".data ++ p := List.drop_left _ _
    have hsplit : splitOnSlash (name ++ "/$defs/".data ++ p) =
        name :: "$defs".data :: splitOnSlash p := by
      have h1 : name ++ "/$defs/".data ++ p = name ++ '/' :: ("$defs".data ++ '/' :: p) := by
        simp
      rw [h1, splitOnSlash, splitChar_append_sep '/' name _ hslash,
        splitChar_append_sep '/' ("$defs".data) p (by decide)]
      rfl
    have hmatch : componentDefsMatch (name ++ "/$defs/".data ++ p) =
        some (name, splitOnSlash p) := by
      unfold componentDefsMatch
      rw [show splitOnSlash (name ++ "/$defs/".data ++ p) =
        name :: "$defs".data :: splitOnSlash p from hsplit]
      have hnn : ¬ splitChar '/' p = [[]] := by
        simpa [splitOnSlash] using splitOnSlash_ne_single_nil p hp
      simp [hname, splitChar_ne_nil '/' p, hnn, splitOnSlash]
    simp at hcne hcstarts hcdrop hmatch
    constructor
    · intro sch d out hlook htr hobj hin hidx hnav
      unfold resolveDefsReference
      simp [hcstarts, hmatch, hlook, htr, hobj, hin, hidx, hnav, except_bind_okk]
    · intro hlook
      unfold resolveDefsReference
      simp [hcstarts, hmatch, hlook, except_bind_okk]

/-- C7 witness: with components `A` and `B` both defining `$defs/Pet`,
the bare reference resolves to `A`'s definition and warns naming both
matches and the explicit reference to `A`; a truthy local-context hit wins
without warning; the component-qualified form resolves directly. -/
theorem c7_witness :
    resolveDefsReference ambiguousDefsDoc ("#/$defs/".data ++ "Pet".data) none =
      .ok (some (JVal.obj [("type".data, JVal.str ("string".data))]),
        [⟨"#/$defs/".data ++ "Pet".data, ["A".data, "B".data],
          "#/components/schemas/".data ++ "A".data ++ "/$defs/".data ++
            List.intercalate ("/".data) (splitOnSlash ("Pet".data))⟩]) ∧
    resolveDefsReference ambiguousDefsDoc ("#/$defs/".data ++ "Pet".data)
        (some (JVal.obj [("$defs".data, JVal.obj [("Pet".data, JVal.bool true)])])) =
      .ok (some (JVal.bool true), []) ∧
    resolveDefsReference ambiguousDefsDoc
        ("#/components/schemas/".data ++ ("A".data ++ "/$defs/".data ++ "Pet".data))
        none =
      .ok (some (JVal.obj [("type".data, JVal.str ("string".data))]), []) := by
  refine ⟨?_, ?_, ?_⟩
  · have h := (c7_defs_resolution_order ambiguousDefsDoc ("Pet".data)).2.2.2.1 rfl
      ("A".data) (JVal.obj [("type".data, JVal.str ("string".data))])
      ("B".data) (JVal.obj [("type".data, JVal.str ("number".data))]) [] rfl
    simpa using h
  · exact (c7_defs_resolution_order ambiguousDefsDoc ("Pet".data)).1
      (JVal.obj [("$defs".data, JVal.obj [("Pet".data, JVal.bool true)])])
      (JVal.obj [("Pet".data, JVal.bool true)]) (JVal.bool true)
      rfl rfl rfl rfl rfl rfl
  · exact ((c7_defs_resolution_order ambiguousDefsDoc ("Pet".data)).2.2.2.2
      ("A".data) none (by decide) (by decide) (by decide)).1
      (JVal.obj [("$defs".data,
        JVal.obj [("Pet".data, JVal.obj [("type".data, JVal.str ("string".data))])])])
      (JVal.obj [("Pet".data, JVal.obj [("type".data, JVal.str ("string".data))])])
      (some (JVal.obj [("type".data, JVal.str ("string".data))]))
      rfl rfl rfl rfl rfl rfl

/-- C10 witness: a concrete store, bag, and call. -/
theorem c10_witness :
    storeRead (processParametersH [[(("body".data : Str), JVal.num 1),
        (("query-a".data : Str), JVal.str ("x".data))]] 0).1 0 =
      some [(("body".data : Str), JVal.num 1), (("query-a".data : Str), JVal.str ("x".data))] :=
  (c10_processParameters_caller_bag_unchanged
    [[(("body".data : Str), JVal.num 1), (("query-a".data : Str), JVal.str ("x".data))]]
    0 _ rfl).1

/-! ### The task-token round trip (C8): decimal literals parse back -/

/-- `Char.ofNat` on a value below the surrogate range keeps that value. -/
theorem char_toNat_ofNat (m : Nat) (h : m < 55296) : (Char.ofNat m).toNat = m := by
  have hv : Nat.isValidChar m := Or.inl h
  simp [Char.ofNat, hv]
  rfl

/-- A digit character is none of the leading characters of the other JSON
value forms. -/
theorem isDigit_ne (c : Char) (hd : c.isDigit = true) (d : Char)
    (hdd : d.isDigit = false) : c ≠ d := by
  intro h
  rw [h, hdd] at hd
  exact Bool.noConfusion hd

/-- The digit character of a value below ten. -/
theorem digitChar_isDigit (n : Nat) (h : n < 10) :
    (Char.ofNat (48 + n)).isDigit = true := by
  have ht : ((Char.ofNat (48 + n)).val.toBitVec.toNat : Nat) = 48 + n :=
    char_toNat_ofNat (48 + n) (by omega)
  simp only [Char.isDigit, Bool.and_eq_true, decide_eq_true_eq, ge_iff_le,
    UInt32.le_def, BitVec.le_def, UInt32.toBitVec_ofNat, BitVec.toNat_ofNat]
  omega

/-- Value of the digit character of a value below ten. -/
theorem digitChar_toNat (n : Nat) (h : n < 10) :
    (Char.ofNat (48 + n)).toNat - 48 = n := by
  have ht := char_toNat_ofNat (48 + n) (by omega)
  omega

/-- `natDigitsAux` ignores the fuel once it exceeds the number. -/
theorem natDigitsAux_fuel : ∀ f g n, n < f → n < g →
    natDigitsAux f n = natDigitsAux g n := by
  intro f
  induction f with
  | zero => intro g n hf hg; exact absurd hf (Nat.not_lt_zero n)
  | succ f ih =>
    intro g n hf hg
    cases g with
    | zero => exact absurd hg (Nat.not_lt_zero n)
    | succ g =>
      unfold natDigitsAux
      by_cases h10 : n < 10
      · simp [h10]
      · have hd : n / 10 < n := Nat.div_lt_self (by omega) (by omega)
        simp [h10]
        rw [ih g (n / 10) (by omega) (by omega)]

/-- `natToStr` on a single digit. -/
theorem natToStr_small (n : Nat) (h : n < 10) :
    natToStr n = [Char.ofNat (48 + n)] := by
  unfold natToStr natDigitsAux
  simp [h]

/-- `natToStr` peels the last digit. -/
theorem natToStr_step (n : Nat) (h : ¬ n < 10) :
    natToStr n = natToStr (n / 10) ++ [Char.ofNat (48 + n % 10)] := by
  have hd : n / 10 < n := Nat.div_lt_self (by omega) (by omega)
  unfold natToStr
  conv_lhs => rw [show n + 1 = (n : Nat) + 1 from rfl]
  unfold natDigitsAux
  simp [h]
  exact natDigitsAux_fuel n (n / 10 + 1) (n / 10) (by omega) (by omega)

/-- `natToStr` is a nonempty digit string. -/
theorem natToStr_cons : ∀ n, ∃ c cs, natToStr n = c :: cs ∧ c.isDigit = true := by
  intro n
  induction n using Nat.strong_induction_on with
  | _ n ih =>
    by_cases h : n < 10
    · exact ⟨Char.ofNat (48 + n), [], natToStr_small n h, digitChar_isDigit n h⟩
    · have hd : n / 10 < n := Nat.div_lt_self (by omega) (by omega)
      obtain ⟨c, cs, heq, hdig⟩ := ih (n / 10) hd
      refine ⟨c, cs ++ [Char.ofNat (48 + n % 10)], ?_, hdig⟩
      rw [natToStr_step n h, heq]
      rfl

/-- Digit accumulation consumes one digit character. -/
theorem parseDigitsAux_cons (acc : Nat) (c : Char) (rest : Str)
    (h : c.isDigit = true) :
    parseDigitsAux acc (c :: rest) = parseDigitsAux (acc * 10 + (c.toNat - 48)) rest := by
  conv_lhs => unfold parseDigitsAux
  simp [h]

/-- Digit accumulation over the rendered digits of `n`. -/
theorem parseDigitsAux_natToStr : ∀ n acc rest,
    parseDigitsAux acc (natToStr n ++ rest) =
      parseDigitsAux (acc * 10 ^ (natToStr n).length + n) rest := by
  intro n
  induction n using Nat.strong_induction_on with
  | _ n ih =>
    intro acc rest
    by_cases h : n < 10
    · rw [natToStr_small n h, List.singleton_append,
        parseDigitsAux_cons acc _ rest (digitChar_isDigit n h),
        digitChar_toNat n h]
      norm_num
    · have hd : n / 10 < n := Nat.div_lt_self (by omega) (by omega)
      rw [natToStr_step n h, List.append_assoc, ih (n / 10) hd acc,
        List.singleton_append,
        parseDigitsAux_cons _ _ rest (digitChar_isDigit (n % 10) (by omega)),
        digitChar_toNat (n % 10) (by omega)]
      congr 1
      rw [List.length_append, List.length_singleton, pow_succ, ← mul_assoc]
      generalize acc * 10 ^ (natToStr (n / 10)).length = B
      have := Nat.div_add_mod n 10
      omega

/-- Digit accumulation stops at a number boundary. -/
theorem parseDigitsAux_stop (acc : Nat) (rest : Str) (h : numBoundary rest = true) :
    parseDigitsAux acc rest = (acc, rest) := by
  cases rest with
  | nil => rfl
  | cons c t =>
    simp [numBoundary] at h
    simp [parseDigitsAux, h.1]

/-- `parseNat` reads back a rendered natural number. -/
theorem parseNat_natToStr (n : Nat) (rest : Str) (h : numBoundary rest = true) :
    parseNat (natToStr n ++ rest) = some (n, rest) := by
  obtain ⟨c, cs, heq, hdig⟩ := natToStr_cons n
  rw [heq, List.cons_append]
  show (if c.isDigit = true then some (parseDigitsAux 0 (c :: (cs ++ rest))) else none) =
    some (n, rest)
  rw [if_pos hdig,
    show c :: (cs ++ rest) = natToStr n ++ rest by rw [heq]; rfl,
    parseDigitsAux_natToStr, parseDigitsAux_stop _ _ h]
  simp

/-- The head of `intToStr` is a minus sign or a digit. -/
theorem intToStr_head (n : Int) :
    ∃ c cs, intToStr n = c :: cs ∧ (c = '-' ∨ c.isDigit = true) := by
  unfold intToStr
  by_cases h : n < 0
  · exact ⟨'-', natToStr n.natAbs, by simp [h], Or.inl rfl⟩
  · obtain ⟨c, cs, heq, hdig⟩ := natToStr_cons n.natAbs
    exact ⟨c, cs, by simp [h, heq], Or.inr hdig⟩

/-- `parseNumber` reads back a rendered integer. -/
theorem parseNumber_intToStr (n : Int) (rest : Str) (h : numBoundary rest = true) :
    parseNumber (intToStr n ++ rest) = some (n, rest) := by
  unfold intToStr
  by_cases hn : n < 0
  · rw [if_pos hn, List.cons_append]
    simp only [parseNumber, if_pos rfl, parseNat_natToStr n.natAbs rest h,
      Option.bind_eq_bind, Option.some_bind, h, if_true]
    rw [show -((n.natAbs : Int)) = n by omega]
    rfl
  · rw [if_neg hn]
    obtain ⟨c, cs, heq, hdig⟩ := natToStr_cons n.natAbs
    rw [heq, List.cons_append]
    have hne := isDigit_ne c hdig '-' (by decide)
    simp only [parseNumber, if_neg hne,
      show c :: (cs ++ rest) = natToStr n.natAbs ++ rest by rw [heq]; rfl,
      parseNat_natToStr n.natAbs rest h,
      Option.bind_eq_bind, Option.some_bind, h, if_true]
    rw [show ((n.natAbs : Int)) = n by omega]
    rfl

/-- Hex digits written by the serializer are read back by the parser. -/
theorem parseHexDigit_hexLower : ∀ n < 16, parseHexDigit (hexLower n) = some n := by
  decide

/-- Parsing one serializer-escaped character prepends that character. -/
theorem parseStringBody_escChar (c : Char) (tl : Str) :
    parseStringBody (escChar c ++ tl) =
      (parseStringBody tl).map (fun pr => (c :: pr.1, pr.2)) := by
  by_cases h1 : c = '"'
  · subst h1
    cases hp : parseStringBody tl <;> simp [escChar, parseStringBody, unescapeChar, hp]
  by_cases h2 : c = '\\'
  · subst h2
    cases hp : parseStringBody tl <;> simp [escChar, parseStringBody, unescapeChar, hp]
  by_cases h3 : c = Char.ofNat 8
  · subst h3
    cases hp : parseStringBody tl <;>
      simp [escChar, parseStringBody, unescapeChar, hp, h1, h2]
  by_cases h4 : c = '\t'
  · subst h4
    cases hp : parseStringBody tl <;> simp [escChar, parseStringBody, unescapeChar, hp]
  by_cases h5 : c = '\n'
  · subst h5
    cases hp : parseStringBody tl <;> simp [escChar, parseStringBody, unescapeChar, hp]
  by_cases h6 : c = Char.ofNat 12
  · subst h6
    cases hp : parseStringBody tl <;>
      simp [escChar, parseStringBody, unescapeChar, hp, h1, h2, h3, h4, h5]
  by_cases h7 : c = '\r'
  · subst h7
    cases hp : parseStringBody tl <;> simp [escChar, parseStringBody, unescapeChar, hp]
  by_cases h8 : c.toNat < 32
  · have e1 := parseHexDigit_hexLower (c.toNat / 16) (by omega)
    have e2 := parseHexDigit_hexLower (c.toNat % 16) (by omega)
    rw [show escChar c =
        ['\\', 'u', '0', '0', hexLower (c.toNat / 16), hexLower (c.toNat % 16)] by
      simp [escChar, h1, h2, h3, h4, h5, h6, h7, h8]]
    cases hp : parseStringBody tl
    · simp [parseStringBody, e1, e2, hp, show parseHexDigit '0' = some 0 from rfl]
    · simp [parseStringBody, e1, e2, hp, show parseHexDigit '0' = some 0 from rfl,
        Nat.div_add_mod, Nat.div_add_mod', Char.ofNat_toNat]
  · rw [show escChar c = [c] by simp [escChar, h1, h2, h3, h4, h5, h6, h7, h8]]
    rw [List.singleton_append, parseStringBody.eq_def]
    cases hp : parseStringBody tl <;> simp [h1, h2, h8, hp]

/-- A serializer-escaped string body parses back to the original string. -/
theorem parseStringBody_escString (s tl : Str) :
    parseStringBody (escString s ++ ('"' :: tl)) = some (s, tl) := by
  induction s with
  | nil =>
    show parseStringBody ('"' :: tl) = some ([], tl)
    rw [parseStringBody.eq_def]
    simp
  | cons c s ih =>
    rw [show escString (c :: s) = escChar c ++ escString s from rfl, List.append_assoc,
      parseStringBody_escChar, ih]
    rfl

/-- Every JSON value has positive size. -/
theorem jsize_pos : ∀ v, 1 ≤ jsize v := by
  intro v
  cases v <;> simp [jsize]

/-- An array has at most as many elements as its size. -/
theorem jsizeList_length : ∀ es : List JVal, es.length ≤ jsizeList es := by
  intro es
  induction es with
  | nil => simp [jsizeList]
  | cons v rest ih => simp [jsizeList]; omega

/-- An element's size is bounded by the list size. -/
theorem jsizeList_elem : ∀ es : List JVal, ∀ e ∈ es, jsize e ≤ jsizeList es := by
  intro es
  induction es with
  | nil => intro e he; cases he
  | cons v rest ih =>
    intro e he
    rcases List.mem_cons.mp he with h | h
    · subst h; simp [jsizeList]; omega
    · have := ih e h; simp [jsizeList]; omega

/-- An object has at most as many members as its size. -/
theorem jsizeFields_length : ∀ fs : List (Str × JVal), fs.length ≤ jsizeFields fs := by
  intro fs
  induction fs with
  | nil => simp [jsizeFields]
  | cons kv rest ih => simp [jsizeFields]; omega

/-- A member value's size is bounded by the member-list size. -/
theorem jsizeFields_elem : ∀ fs : List (Str × JVal), ∀ kv ∈ fs,
    jsize kv.2 ≤ jsizeFields fs := by
  intro fs
  induction fs with
  | nil => intro kv h; cases h
  | cons kv' rest ih =>
    intro kv h
    rcases List.mem_cons.mp h with h | h
    · subst h; simp [jsizeFields]; omega
    · have := ih kv h; simp [jsizeFields]; omega

/-- A serialized value starts with a character other than a closing bracket. -/
theorem stringifyJson_head : ∀ v : JVal,
    ∃ c cs, stringifyJson v = c :: cs ∧ c ≠ ']' ∧ c ≠ '}' := by
  intro v
  cases v with
  | null => exact ⟨'n', _, rfl, by decide, by decide⟩
  | bool b =>
    cases b
    · exact ⟨'f', _, rfl, by decide, by decide⟩
    · exact ⟨'t', _, rfl, by decide, by decide⟩
  | num n =>
    obtain ⟨c, cs, heq, hc⟩ := intToStr_head n
    refine ⟨c, cs, by rw [show stringifyJson (.num n) = intToStr n from rfl, heq], ?_, ?_⟩
    · rcases hc with h | h
      · subst h; decide
      · exact isDigit_ne c h ']' (by decide)
    · rcases hc with h | h
      · subst h; decide
      · exact isDigit_ne c h '}' (by decide)
  | str s => exact ⟨'"', _, rfl, by decide, by decide⟩
  | arr es => exact ⟨'[', _, rfl, by decide, by decide⟩
  | obj fs => exact ⟨'{', _, rfl, by decide, by decide⟩

/-- A serialized nonempty array body starts with its first element's head. -/
theorem stringifyArr_head (e : JVal) (es : List JVal) :
    ∃ c cs, stringifyArr (e :: es) = c :: cs ∧ c ≠ ']' ∧ c ≠ '}' := by
  obtain ⟨c, cs, heq, h1, h2⟩ := stringifyJson_head e
  cases es with
  | nil => exact ⟨c, cs, by simp [stringifyArr, heq], h1, h2⟩
  | cons e' es' =>
    exact ⟨c, cs ++ ',' :: stringifyArr (e' :: es'), by simp [stringifyArr, heq], h1, h2⟩

/-- A serialized nonempty object body starts with a quote. -/
theorem stringifyObj_head (kv : Str × JVal) (fs : List (Str × JVal)) :
    ∃ cs, stringifyObj (kv :: fs) = '"' :: cs := by
  obtain ⟨k, v⟩ := kv
  cases fs with
  | nil => exact ⟨_, rfl⟩
  | cons kv' fs' => exact ⟨_, rfl⟩

mutual

/-- The size of a value is bounded by its serialized length. -/
theorem jsize_le_len : (v : JVal) → jsize v ≤ (stringifyJson v).length
  | .null => by simp [jsize, stringifyJson]
  | .bool b => by cases b <;> simp [jsize, stringifyJson]
  | .num n => by
    obtain ⟨c, cs, heq, _⟩ := intToStr_head n
    simp [jsize, stringifyJson, heq]
  | .str s => by simp [jsize, stringifyJson]
  | .arr es => by
    have h := jsizeArr_le es
    simp [jsize, stringifyJson]
    omega
  | .obj fs => by
    have h := jsizeObj_le fs
    simp [jsize, stringifyJson]
    omega

/-- List form of the size bound. -/
theorem jsizeArr_le : (es : List JVal) → jsizeList es ≤ (stringifyArr es).length + 1
  | [] => by simp [jsizeList]
  | [v] => by
    have h := jsize_le_len v
    simp [jsizeList, stringifyArr, jsize]
    omega
  | v :: v' :: rest => by
    have h1 := jsize_le_len v
    have h2 := jsizeArr_le (v' :: rest)
    simp [jsizeList, stringifyArr] at h2 ⊢
    omega

/-- Member form of the size bound. -/
theorem jsizeObj_le : (fs : List (Str × JVal)) → jsizeFields fs ≤ (stringifyObj fs).length + 1
  | [] => by simp [jsizeFields]
  | [(k, v)] => by
    have h := jsize_le_len v
    simp [jsizeFields, stringifyObj, jsize]
    omega
  | (k, v) :: kv' :: rest => by
    have h1 := jsize_le_len v
    have h2 := jsizeObj_le (kv' :: rest)
    simp [jsizeFields, stringifyObj] at h2 ⊢
    omega

end

/-- Given a value parser that reads back serialized values, the element
parser reads back a serialized nonempty array body up to the closing `]`. -/
theorem parseSeq_spec (pf : Nat)
    (hpv : ∀ v rest, jsize v ≤ pf → numBoundary rest = true →
      parseValue pf (stringifyJson v ++ rest) = some (v, rest)) :
    ∀ (es : List JVal) (sf : Nat) (rest : Str), es ≠ [] → es.length ≤ sf →
      (∀ e ∈ es, jsize e ≤ pf) →
      parseSeq (parseValue pf) sf (stringifyArr es ++ (']' :: rest)) = some (es, rest) := by
  intro es
  induction es with
  | nil => intro sf rest hne; exact absurd rfl hne
  | cons e es ih =>
    intro sf rest _ hlen helem
    cases sf with
    | zero => simp at hlen
    | succ sf =>
      have hje : jsize e ≤ pf := helem e (List.mem_cons_self e es)
      cases es with
      | nil =>
        have h1 := hpv e (']' :: rest) hje rfl
        show parseSeq (parseValue pf) (sf + 1) (stringifyJson e ++ (']' :: rest)) =
          some ([e], rest)
        rw [parseSeq.eq_def]
        simp [h1]
      | cons e' es' =>
        have h1 := hpv e (',' :: (stringifyArr (e' :: es') ++ (']' :: rest))) hje rfl
        have h2 := ih sf rest (by simp) (by simp at hlen ⊢; omega)
          (fun x hx => helem x (List.mem_cons_of_mem e hx))
        rw [show stringifyArr (e :: e' :: es') ++ (']' :: rest) =
            stringifyJson e ++ (',' :: (stringifyArr (e' :: es') ++ (']' :: rest))) by
          simp [stringifyArr]]
        rw [parseSeq.eq_def]
        simp [h1, h2]

/-- Given a value parser that reads back serialized values, the member
parser reads back a serialized nonempty object body up to the closing
brace. -/
theorem parseMembersSeq_spec (pf : Nat)
    (hpv : ∀ v rest, jsize v ≤ pf → numBoundary rest = true →
      parseValue pf (stringifyJson v ++ rest) = some (v, rest)) :
    ∀ (fs : List (Str × JVal)) (sf : Nat) (rest : Str), fs ≠ [] → fs.length ≤ sf →
      (∀ kv ∈ fs, jsize kv.2 ≤ pf) →
      parseMembersSeq (parseValue pf) sf (stringifyObj fs ++ ('}' :: rest)) =
        some (fs, rest) := by
  intro fs
  induction fs with
  | nil => intro sf rest hne; exact absurd rfl hne
  | cons kv fs ih =>
    intro sf rest _ hlen helem
    obtain ⟨k, v⟩ := kv
    cases sf with
    | zero => simp at hlen
    | succ sf =>
      have hjv : jsize (k, v).2 ≤ pf := helem (k, v) (List.mem_cons_self (k, v) fs)
      cases fs with
      | nil =>
        have hkey := parseStringBody_escString k (':' :: (stringifyJson v ++ ('}' :: rest)))
        have h1 := hpv v ('}' :: rest) hjv rfl
        rw [show stringifyObj [(k, v)] ++ ('}' :: rest) =
            '"' :: (escString k ++ ('"' :: (':' :: (stringifyJson v ++ ('}' :: rest))))) by
          simp [stringifyObj]]
        rw [parseMembersSeq.eq_def]
        simp [hkey, h1]
      | cons kv' fs' =>
        have hkey := parseStringBody_escString k
          (':' :: (stringifyJson v ++ (',' :: (stringifyObj (kv' :: fs') ++ ('}' :: rest)))))
        have h1 := hpv v (',' :: (stringifyObj (kv' :: fs') ++ ('}' :: rest))) hjv rfl
        have h2 := ih sf rest (by simp) (by simp at hlen ⊢; omega)
          (fun x hx => helem x (List.mem_cons_of_mem (k, v) hx))
        rw [show stringifyObj ((k, v) :: kv' :: fs') ++ ('}' :: rest) =
            '"' :: (escString k ++ ('"' :: (':' :: (stringifyJson v ++
              (',' :: (stringifyObj (kv' :: fs') ++ ('}' :: rest))))))) by
          simp [stringifyObj]]
        rw [parseMembersSeq.eq_def]
        simp [hkey, h1, h2]

/-- The value parser on a quote dispatches to the string body parser. -/
theorem parseValue_str (fuel : Nat) (rest : Str) :
    parseValue (fuel + 1) ('"' :: rest) =
      (parseStringBody rest).map (fun sr => (JVal.str sr.1, sr.2)) := rfl

/-- The value parser on `[` dispatches to the element parser. -/
theorem parseValue_arr (fuel : Nat) (rest : Str) :
    parseValue (fuel + 1) ('[' :: rest) =
      (if rest.head? = some ']' then some (.arr [], rest.tail)
       else (parseSeq (parseValue fuel) fuel rest).map
         (fun er => (JVal.arr er.1, er.2))) := rfl

/-- The value parser on a brace dispatches to the member parser. -/
theorem parseValue_obj (fuel : Nat) (rest : Str) :
    parseValue (fuel + 1) ('{' :: rest) =
      (if rest.head? = some '}' then some (.obj [], rest.tail)
       else (parseMembersSeq (parseValue fuel) fuel rest).map
         (fun mr => (JVal.obj mr.1, mr.2))) := rfl

/-- On a minus sign or digit, the value parser delegates to the number
parser. -/
theorem parseValue_num_head (fuel : Nat) (c : Char) (rest : Str)
    (hc : c = '-' ∨ c.isDigit = true) :
    parseValue (fuel + 1) (c :: rest) =
      (parseNumber (c :: rest)).map (fun nr => (JVal.num nr.1, nr.2)) := by
  rcases hc with h | h
  · subst h; rfl
  · simp [Char.isDigit] at h
    obtain ⟨hlo, hhi⟩ := h
    have hlo' : 48 ≤ c.toNat := hlo
    have hhi' : c.toNat ≤ 57 := hhi
    clear hlo hhi
    have hofn : c = Char.ofNat c.toNat := (Char.ofNat_toNat c).symm
    have henum : c.toNat = 48 ∨ c.toNat = 49 ∨ c.toNat = 50 ∨ c.toNat = 51 ∨
        c.toNat = 52 ∨ c.toNat = 53 ∨ c.toNat = 54 ∨ c.toNat = 55 ∨
        c.toNat = 56 ∨ c.toNat = 57 := by omega
    rcases henum with h | h | h | h | h | h | h | h | h | h <;>
      rw [hofn, h] <;> rfl

/-- The parser reads back every serialized JSON value, leaving the rest of
the input intact, provided the fuel covers the value's size. -/
theorem parseValue_stringify : ∀ (fuel : Nat) (v : JVal) (rest : Str),
    jsize v ≤ fuel → numBoundary rest = true →
    parseValue fuel (stringifyJson v ++ rest) = some (v, rest) := by
  intro fuel
  induction fuel with
  | zero =>
    intro v rest hj _
    have := jsize_pos v
    omega
  | succ fuel ih =>
    intro v rest hj hb
    cases v with
    | null =>
      show parseValue (fuel + 1) ('n' :: 'u' :: 'l' :: 'l' :: rest) = some (.null, rest)
      rfl
    | bool b =>
      cases b
      · show parseValue (fuel + 1) ('f' :: 'a' :: 'l' :: 's' :: 'e' :: rest) =
          some (.bool false, rest)
        rfl
      · show parseValue (fuel + 1) ('t' :: 'r' :: 'u' :: 'e' :: rest) =
          some (.bool true, rest)
        rfl
    | num n =>
      obtain ⟨c, cs, heq, hc⟩ := intToStr_head n
      have hnum := parseNumber_intToStr n rest hb
      rw [show stringifyJson (.num n) = intToStr n from rfl, heq, List.cons_append,
        parseValue_num_head fuel c (cs ++ rest) hc,
        show c :: (cs ++ rest) = intToStr n ++ rest by rw [heq]; rfl, hnum]
      rfl
    | str s =>
      have hkey := parseStringBody_escString s rest
      rw [show stringifyJson (.str s) ++ rest = '"' :: (escString s ++ ('"' :: rest)) by
        simp [stringifyJson]]
      rw [parseValue_str, hkey]
      rfl
    | arr es =>
      cases es with
      | nil =>
        show parseValue (fuel + 1) ('[' :: ']' :: rest) = some (.arr [], rest)
        rfl
      | cons e es' =>
        obtain ⟨c, cs, harr, hc1, _⟩ := stringifyArr_head e es'
        have hj' : jsizeList (e :: es') ≤ fuel := by simp [jsize] at hj; omega
        have hspec := parseSeq_spec fuel ih (e :: es') fuel rest (by simp)
          (le_trans (jsizeList_length (e :: es')) hj')
          (fun x hx => le_trans (jsizeList_elem (e :: es') x hx) hj')
        have hhead : (stringifyArr (e :: es') ++ (']' :: rest)).head? = some c := by
          rw [harr]; rfl
        rw [show stringifyJson (.arr (e :: es')) ++ rest =
            '[' :: (stringifyArr (e :: es') ++ (']' :: rest)) by simp [stringifyJson]]
        rw [parseValue_arr, hhead, if_neg (by simp [hc1]), hspec]
        rfl
    | obj fs =>
      cases fs with
      | nil =>
        show parseValue (fuel + 1) ('{' :: '}' :: rest) = some (.obj [], rest)
        rfl
      | cons kv fs' =>
        obtain ⟨cs, hobj⟩ := stringifyObj_head kv fs'
        have hj' : jsizeFields (kv :: fs') ≤ fuel := by simp [jsize] at hj; omega
        have hspec := parseMembersSeq_spec fuel ih (kv :: fs') fuel rest (by simp)
          (le_trans (jsizeFields_length (kv :: fs')) hj')
          (fun x hx => le_trans (jsizeFields_elem (kv :: fs') x hx) hj')
        have hhead : (stringifyObj (kv :: fs') ++ ('}' :: rest)).head? = some '"' := by
          rw [hobj]; rfl
        rw [show stringifyJson (.obj (kv :: fs')) ++ rest =
            '{' :: (stringifyObj (kv :: fs') ++ ('}' :: rest)) by simp [stringifyJson]]
        rw [parseValue_obj, hhead, if_neg (by decide), hspec]
        rfl

/-- `JSON.parse` reads back every `JSON.stringify` document. -/
theorem parseJson_stringify (v : JVal) : parseJson (stringifyJson v) = some v := by
  have hj : jsize v ≤ (stringifyJson v).length + 1 :=
    le_trans (jsize_le_len v) (by omega)
  have h := parseValue_stringify ((stringifyJson v).length + 1) v [] hj rfl
  rw [List.append_nil] at h
  unfold parseJson
  rw [h]

/-- Base64 digits decode back to their 6-bit values. -/
theorem b64Val_b64Char : ∀ n < 64, b64Val (b64Char n) = some n := by decide

/-- No base64 digit is the padding character. -/
theorem b64Char_ne_eq : ∀ n < 64, ¬ b64Char n = '=' := by decide

/-- Base64 decoding inverts encoding on byte sequences. -/
theorem b64_roundtrip : ∀ bytes : List Nat, (∀ x ∈ bytes, x < 256) →
    b64Decode (b64Encode bytes) = some bytes := by
  intro bytes
  induction bytes using b64Encode.induct with
  | case1 => intro _; rfl
  | case2 a =>
    intro hb
    have ha : a < 256 := hb a (by simp)
    have e1 := b64Val_b64Char (a / 4) (by omega)
    have e2 := b64Val_b64Char (a % 4 * 16) (by omega)
    simp [b64Encode, b64Decode, e1, e2]
    omega
  | case3 a b =>
    intro hb
    have ha : a < 256 := hb a (by simp)
    have hbb : b < 256 := hb b (by simp)
    have e1 := b64Val_b64Char (a / 4) (by omega)
    have e2 := b64Val_b64Char (a % 4 * 16 + b / 16) (by omega)
    have e3 := b64Val_b64Char (b % 16 * 4) (by omega)
    have hne3 := b64Char_ne_eq (b % 16 * 4) (by omega)
    simp [b64Encode, b64Decode, hne3, e1, e2, e3]
    omega
  | case4 a b c rest ih =>
    intro hb
    have ha : a < 256 := hb a (by simp)
    have hbb : b < 256 := hb b (by simp)
    have hc : c < 256 := hb c (by simp)
    have e1 := b64Val_b64Char (a / 4) (by omega)
    have e2 := b64Val_b64Char (a % 4 * 16 + b / 16) (by omega)
    have e3 := b64Val_b64Char (b % 16 * 4 + c / 64) (by omega)
    have e4 := b64Val_b64Char (c % 64) (by omega)
    have hne3 := b64Char_ne_eq (b % 16 * 4 + c / 64) (by omega)
    have hne4 := b64Char_ne_eq (c % 64) (by omega)
    have htail := ih (fun x hx => hb x (by simp [hx]))
    simp [b64Encode, b64Decode, hne3, hne4, e1, e2, e3, e4, htail]
    omega

/-- Reading bytes back as characters recovers the original string. -/
theorem map_toNat_ofNat (s : Str) :
    (s.map (fun c => c.toNat)).map Char.ofNat = s := by
  rw [List.map_map,
    show (Char.ofNat ∘ fun c => c.toNat) = id from funext fun c => Char.ofNat_toNat c,
    List.map_id]

/-- The destructuring of a serialized invocation object recovers it. -/
theorem invOfJVal_invToJVal (inv : StreamInvocation) :
    invOfJVal (invToJVal inv) = some inv := rfl

/-- C8 (amended): for every StreamInvocation whose JSON serialization stays
within Latin-1 (all code points below 256), encoding it to a task token via
`btoa(JSON.stringify(...))` and decoding the token via
`JSON.parse(atob(...))` yields the original invocation. -/
theorem c8_stream_token_roundtrip (inv : StreamInvocation)
    (h : ∀ c ∈ stringifyJson (invToJVal inv), c.toNat < 256) :
    (encodeTask inv).bind decodeTask = some inv := by
  unfold encodeTask btoa
  rw [if_pos (by simpa [List.all_eq_true] using h)]
  show decodeTask
    (b64Encode (List.map (fun c => c.toNat) (stringifyJson (invToJVal inv)))) = some inv
  unfold decodeTask atob
  rw [b64_roundtrip _ (by
    intro x hx
    obtain ⟨c, hc, rfl⟩ := List.mem_map.mp hx
    exact h c hc)]
  show (parseJson ((List.map (fun c => c.toNat)
      (stringifyJson (invToJVal inv))).map Char.ofNat)).bind invOfJVal = some inv
  rw [map_toNat_ofNat, parseJson_stringify]
  simp [invOfJVal_invToJVal]

/-- C8 counterexample to the unamended claim: an invocation whose model
name holds a non-Latin-1 character makes `btoa` throw, so the round trip
does not return the original invocation. -/
theorem c8_counterexample_non_latin1 :
    (encodeTask ⟨"→".data, "t".data, []⟩).bind decodeTask ≠
      some ⟨"→".data, "t".data, []⟩ := by
  rw [show encodeTask ⟨"→".data, "t".data, []⟩ = none from rfl]
  simp

/-- C8 witness: a concrete ASCII invocation round-trips. -/
theorem c8_witness :
    (∀ c ∈ stringifyJson (invToJVal ⟨"demo".data, "getPet".data,
        [("path-id".data, JVal.num 7)]⟩), c.toNat < 256) ∧
    (encodeTask ⟨"demo".data, "getPet".data, [("path-id".data, JVal.num 7)]⟩).bind
        decodeTask =
      some ⟨"demo".data, "getPet".data, [("path-id".data, JVal.num 7)]⟩ :=
  ⟨by decide, c8_stream_token_roundtrip _ (by decide)⟩

end MyMCP
